import Mathlib

/-!
Verification development for the sync-pipeline core of the `Mause/uv`
repository.  The Rust sources under `src/crates/` are shallowly embedded as
executable Lean definitions; external crates (URL parsing, wheel-filename
parsing, canonicalization, the filesystem, the planner/resolver oracles) are
either parameters of the embedding or small concrete models whose doc
comments say so.
-/

set_option maxRecDepth 4096

/-- Package names, `uv_normalize::PackageName`.  The normalization itself is
an external crate; names are modelled as plain strings. -/
abbrev PackageName := String

/-- ASCII lowercasing of a single character, as used by
`str::eq_ignore_ascii_case` in Rust. -/
def asciiLowerChar (c : Char) : Char :=
  if 'A' ≤ c ∧ c ≤ 'Z' then Char.ofNat (c.toNat + 32) else c

/-- ASCII lowercasing of a string. -/
def asciiLower (s : String) : String :=
  String.mk (s.data.map asciiLowerChar)

/-- Model of Rust `str::eq_ignore_ascii_case`. -/
def eqIgnoreAsciiCase (a b : String) : Bool :=
  asciiLower a = asciiLower b

/-- Splitting a character list at every occurrence of a separator character.
Splitting the empty list yields one empty piece, matching Rust `str::split`. -/
def splitChar (sep : Char) : List Char → List (List Char)
  | [] => [[]]
  | x :: xs =>
    if x = sep then [] :: splitChar sep xs
    else
      match splitChar sep xs with
      | [] => [[x]]
      | piece :: rest => (x :: piece) :: rest

/-- String form of [`splitChar`]. -/
def strSplitChar (sep : Char) (s : String) : List String :=
  (splitChar sep s.data).map String.mk

/-- Suffix test on strings by structural recursion (kernel-reducible). -/
def strEndsWith (s suffix : String) : Bool :=
  suffix.data.reverse.isPrefixOf s.data.reverse

/-- A URL (the external `url::Url` type).  Only the components the embedded
code inspects are carried: scheme, host and the serialized path. -/
structure Url where
  scheme : String
  host : String
  path : String
deriving DecidableEq, Repr

/-- Serialization of a [`Url`], used for error payloads. -/
def Url.toString (u : Url) : String :=
  u.scheme ++ "://" ++ u.host ++ u.path

/-- A `pep508_rs::VerbatimUrl`: a parsed URL together with the verbatim text
the user wrote, when it was preserved. -/
structure VerbatimUrl where
  url : Url
  given : Option String
deriving DecidableEq, Repr

/-- Model of `VerbatimUrl::verbatim`: the user-given text when present,
otherwise the serialized URL. -/
def VerbatimUrl.verbatim (v : VerbatimUrl) : String :=
  v.given.getD v.url.toString

/-- Model of `VerbatimUrl::to_url`. -/
def VerbatimUrl.toUrl (v : VerbatimUrl) : Url :=
  v.url

/-- A parsed wheel filename (`distribution_filename::WheelFilename`): the
embedded package name and version.  Compatibility tags are not inspected by
the embedded code and are omitted. -/
structure WheelFilename where
  name : PackageName
  version : String
deriving DecidableEq, Repr

/-- Modelled from the spec: `WheelFilename::from_str` lives in the external
`distribution-filename` crate, absent from `src/`.  Per the glossary, a wheel
filename encodes `name-version-pythontag-abitag-platformtag.whl`; anything
else fails to parse. -/
def parseWheelFilename (s : String) : Option WheelFilename :=
  if strEndsWith s ".whl" then
    match strSplitChar '-' (String.mk (s.data.take (s.data.length - 4))) with
    | [n, v, _, _, _] => some ⟨n, v⟩
    | _ => none
  else
    none

/-- Kinds of I/O errors distinguished by the embedded code
(`std::io::ErrorKind`): `NotFound` against everything else. -/
inductive FsErrorKind where
  | notFound
  | other (msg : String)
deriving DecidableEq, Repr

/-- The classification errors of `distribution_types::Error` reachable from
`Dist::from_http_url` / `Dist::from_file_url`. -/
inductive DistError where
  | packageNameMismatch (requirement found : PackageName) (url : String)
  | notFound (url : Url)
  | editableFile (url : VerbatimUrl)
  | urlFilename (url : Url)
  | invalidWheelFilename (filename : String)
  | fsError (kind : FsErrorKind)
deriving DecidableEq, Repr

/-- Decidable equality for `Except`, needed to evaluate classification
results on concrete inputs. -/
instance {e a : Type} [DecidableEq e] [DecidableEq a] : DecidableEq (Except e a) :=
  fun x y =>
    match x, y with
    | .error u, .error v =>
      if h : u = v then isTrue (by rw [h]) else
        isFalse (fun hh => h (by injection hh))
    | .error _, .ok _ => isFalse (fun hh => by cases hh)
    | .ok _, .error _ => isFalse (fun hh => by cases hh)
    | .ok u, .ok v =>
      if h : u = v then isTrue (by rw [h]) else
        isFalse (fun hh => h (by injection hh))

/-- A content digest (`pypi_types::HashDigest`), opaque. -/
abbrev HashDigest := String

/-- `distribution_types::FileLocation` (from the `file` module of the crate,
re-exported by `lib.rs`): where a registry file's content lives. -/
inductive FileLocation where
  | relativeUrl (base url : String)
  | absoluteUrl (url : String)
  | path (p : String)
deriving DecidableEq, Repr

/-- A registry file (`distribution_types::File`): the fields inspected by the
embedded code (declared hashes, filename, size, location). -/
structure File where
  filename : String
  hashes : List HashDigest
  size : Option Nat
  url : FileLocation
deriving DecidableEq, Repr

/-- `RegistryBuiltWheel`: one prebuilt artifact in a registry. -/
structure RegistryBuiltWheel where
  filename : WheelFilename
  file : File
  index : String
deriving DecidableEq, Repr

/-- `SourceDistFilename`, opaque name/version pair. -/
structure SourceDistFilename where
  name : PackageName
  version : String
deriving DecidableEq, Repr

/-- `RegistrySourceDist`. -/
structure RegistrySourceDist where
  filename : SourceDistFilename
  file : File
  index : String
  wheels : List RegistryBuiltWheel
deriving DecidableEq, Repr

/-- `RegistryBuiltDist`: all wheels of one (name, version) plus the index of
the best one.  The invariant (non-empty, in bounds) is claimed, not enforced
by the type, exactly as in the source. -/
structure RegistryBuiltDist where
  wheels : List RegistryBuiltWheel
  bestWheelIndex : Nat
  sdist : Option RegistrySourceDist
deriving DecidableEq, Repr

/-- `DirectUrlBuiltDist`. -/
structure DirectUrlBuiltDist where
  filename : WheelFilename
  location : Url
  subdirectory : Option String
  url : VerbatimUrl
deriving DecidableEq, Repr

/-- `PathBuiltDist`. -/
structure PathBuiltDist where
  filename : WheelFilename
  url : VerbatimUrl
  path : String
deriving DecidableEq, Repr

/-- `DirectUrlSourceDist`. -/
structure DirectUrlSourceDist where
  name : PackageName
  location : Url
  subdirectory : Option String
  url : VerbatimUrl
deriving DecidableEq, Repr

/-- `GitSourceDist` (the `GitUrl` is opaque). -/
structure GitSourceDist where
  name : PackageName
  git : String
  subdirectory : Option String
  url : VerbatimUrl
deriving DecidableEq, Repr

/-- `PathSourceDist`. -/
structure PathSourceDist where
  name : PackageName
  url : VerbatimUrl
  path : String
deriving DecidableEq, Repr

/-- `DirectorySourceDist`. -/
structure DirectorySourceDist where
  name : PackageName
  url : VerbatimUrl
  path : String
  editable : Bool
deriving DecidableEq, Repr

/-- `BuiltDist`: a wheel with its three possible origins. -/
inductive BuiltDist where
  | registry (d : RegistryBuiltDist)
  | directUrl (d : DirectUrlBuiltDist)
  | path (d : PathBuiltDist)
deriving DecidableEq, Repr

/-- `SourceDist`: a source distribution with its five possible origins. -/
inductive SourceDist where
  | registry (d : RegistrySourceDist)
  | directUrl (d : DirectUrlSourceDist)
  | git (d : GitSourceDist)
  | path (d : PathSourceDist)
  | directory (d : DirectorySourceDist)
deriving DecidableEq, Repr

/-- `Dist`: either built or source (named `Distribution` here because Lean's
library already claims `Dist`). -/
inductive Distribution where
  | built (d : BuiltDist)
  | source (d : SourceDist)
deriving DecidableEq, Repr

/-- Model of Rust `Path::file_name` on a Unix-style path string: the final
component, with trailing separators and trailing `.` components ignored, and
no file name for an empty path or one ending in `..`. -/
def rustFileName (p : String) : Option String :=
  let comps := (strSplitChar '/' p).filter (fun c => c ≠ "" ∧ c ≠ ".")
  match comps.getLast? with
  | none => none
  | some c => if c = ".." then none else some c

/-- Model of Rust `Path::extension`: the part of the file name after the last
`.`, none when there is no `.` or when the only `.` is the leading one. -/
def rustExtension (p : String) : Option String :=
  match rustFileName p with
  | none => none
  | some f =>
    let parts := strSplitChar '.' f
    match parts with
    | [] => none
    | [_] => none
    | first :: rest =>
      if first = "" ∧ rest.length = 1 then none
      else rest.getLast?

/-- The test on the wheel extension performed by the classifier:
`Path::new(path).extension().is_some_and(|ext| ext.eq_ignore_ascii_case("whl"))`. -/
def hasWheelExtension (p : String) : Bool :=
  match rustExtension p with
  | some ext => eqIgnoreAsciiCase ext "whl"
  | none => false

/-- Model of `RemoteSource for Url::filename`: the last path segment of the
URL, percent-decoded.  Percent-decoding (`urlencoding::decode`) is an
external crate and is passed in as `decode`.  A URL without path segments
(cannot-be-a-base, path not starting with `/`) is the `UrlFilename` error. -/
def urlFilename (decode : String → String) (u : Url) : Except DistError String :=
  match u.path.data with
  | '/' :: rest => .ok (decode (((splitChar '/' rest).map String.mk).getLastD ""))
  | _ => .error (.urlFilename u)

/-- Embedding of `Dist::from_http_url` (src/crates/distribution-types/src/lib.rs,
lines 278-312).  `parse` stands for the external `WheelFilename::from_str`
and `decode` for `urlencoding::decode`. -/
def Distribution.fromHttpUrl (parse : String → Option WheelFilename)
    (decode : String → String) (name : PackageName) (location : Url)
    (subdirectory : Option String) (url : VerbatimUrl) : Except DistError Distribution :=
  if hasWheelExtension url.url.path then
    match urlFilename decode url.url with
    | .error e => .error e
    | .ok fname =>
      match parse fname with
      | none => .error (.invalidWheelFilename fname)
      | some filename =>
        if filename.name ≠ name then
          .error (.packageNameMismatch name filename.name url.verbatim)
        else
          .ok (.built (.directUrl ⟨filename, location, subdirectory, url⟩))
  else
    .ok (.source (.directUrl ⟨name, location, subdirectory, url⟩))

/-- The filesystem operations used by `Dist::from_file_url`:
`Path::canonicalize` (which also checks existence) and `Path::is_dir`. -/
structure FileSystem where
  canonicalize : String → Except FsErrorKind String
  isDir : String → Bool

/-- Embedding of `Dist::from_file_url` (src/crates/distribution-types/src/lib.rs,
lines 315-372). -/
def Distribution.fromFileUrl (fs : FileSystem) (parse : String → Option WheelFilename)
    (decode : String → String) (name : PackageName) (path : String)
    (editable : Bool) (url : VerbatimUrl) : Except DistError Distribution :=
  match fs.canonicalize path with
  | .error .notFound => .error (.notFound url.toUrl)
  | .error k => .error (.fsError k)
  | .ok canonical =>
    if fs.isDir canonical then
      .ok (.source (.directory ⟨name, url, canonical, editable⟩))
    else if hasWheelExtension canonical then
      match urlFilename decode url.url with
      | .error e => .error e
      | .ok fname =>
        match parse fname with
        | none => .error (.invalidWheelFilename fname)
        | some filename =>
          if filename.name ≠ name then
            .error (.packageNameMismatch name filename.name url.verbatim)
          else if editable then
            .error (.editableFile url)
          else
            .ok (.built (.path ⟨filename, url, canonical⟩))
    else if editable then
      .error (.editableFile url)
    else
      .ok (.source (.path ⟨name, url, canonical⟩))

/-- Rendering of the claim's own wording for C1: "the URL's path ends
case-insensitively in the wheel extension", read as a literal suffix test
for `.whl`.  This is compared against the source's `hasWheelExtension`. -/
def claimPathEndsInWheelExtension (p : String) : Bool :=
  strEndsWith (asciiLower p) ".whl"

/-- Claim C1 (amended): classifying an HTTP(S) URL with `Dist::from_http_url`
lands in the wheel branch exactly when the path's `Path::extension` is `whl`
case-insensitively; there the last URL path segment is parsed as a wheel
filename — a parsed name equal to the requirement's yields `DirectUrlBuilt`
carrying that filename, a differing parsed name is the fatal
`PackageNameMismatch` error (and a segment that fails to parse is a fatal
error, so every successful wheel-branch result is a name-validated
`DirectUrlBuilt`); a path without the wheel extension always yields
`DirectUrlSource` with no name validation. -/
theorem fromHttpUrl_classification (parse : String → Option WheelFilename)
    (decode : String → String) (name : PackageName) (location : Url)
    (subdirectory : Option String) (url : VerbatimUrl) :
    (hasWheelExtension url.url.path = true →
      (∀ s fn, urlFilename decode url.url = .ok s → parse s = some fn →
        (fn.name = name →
          Distribution.fromHttpUrl parse decode name location subdirectory url =
            .ok (.built (.directUrl ⟨fn, location, subdirectory, url⟩))) ∧
        (fn.name ≠ name →
          Distribution.fromHttpUrl parse decode name location subdirectory url =
            .error (.packageNameMismatch name fn.name url.verbatim))) ∧
      (∀ d, Distribution.fromHttpUrl parse decode name location subdirectory url = .ok d →
        ∃ fn, d = .built (.directUrl ⟨fn, location, subdirectory, url⟩) ∧ fn.name = name)) ∧
    (hasWheelExtension url.url.path = false →
      Distribution.fromHttpUrl parse decode name location subdirectory url =
        .ok (.source (.directUrl ⟨name, location, subdirectory, url⟩))) := by
  constructor
  · intro hw
    constructor
    · intro s fn hs hp
      constructor
      · intro hname
        simp [Distribution.fromHttpUrl, hw, hs, hp, hname]
      · intro hname
        simp [Distribution.fromHttpUrl, hw, hs, hp, hname]
    · intro d hd
      cases hu : urlFilename decode url.url with
      | error e => simp [Distribution.fromHttpUrl, hw, hu] at hd
      | ok s =>
        cases hp : parse s with
        | none => simp [Distribution.fromHttpUrl, hw, hu, hp] at hd
        | some fn =>
          by_cases hname : fn.name = name
          · refine ⟨fn, ?_, hname⟩
            simp [Distribution.fromHttpUrl, hw, hu, hp, hname] at hd
            exact hd.symm
          · simp [Distribution.fromHttpUrl, hw, hu, hp, hname] at hd
  · intro hw
    simp [Distribution.fromHttpUrl, hw]

/-- Witness for `fromHttpUrl_classification` at a concrete wheel URL. -/
theorem fromHttpUrl_classification_witness :
    Distribution.fromHttpUrl parseWheelFilename id "flask"
        ⟨"https", "example.org", "/flask-3.0.0-py3-none-any.whl"⟩ none
        ⟨⟨"https", "example.org", "/flask-3.0.0-py3-none-any.whl"⟩, none⟩ =
      .ok (.built (.directUrl ⟨⟨"flask", "3.0.0"⟩,
        ⟨"https", "example.org", "/flask-3.0.0-py3-none-any.whl"⟩, none,
        ⟨⟨"https", "example.org", "/flask-3.0.0-py3-none-any.whl"⟩, none⟩⟩)) :=
  ((fromHttpUrl_classification parseWheelFilename id "flask"
      ⟨"https", "example.org", "/flask-3.0.0-py3-none-any.whl"⟩ none
      ⟨⟨"https", "example.org", "/flask-3.0.0-py3-none-any.whl"⟩, none⟩).1
    (by decide)).1 "flask-3.0.0-py3-none-any.whl" ⟨"flask", "3.0.0"⟩
    (by decide) (by decide) |>.1 (by decide)

/-- Counterexample to claim C1 as stated: for the URL path
`/flask-3.0.0-py3-none-any.whl/` the path does not end in `.whl` (it ends in
`/`), so the claim predicts a successful `DirectUrlSource`; the code instead
takes the wheel branch (`Path::extension` ignores the trailing slash) and
fails on the empty final URL segment — neither a `DirectUrlSource` nor a
name-validated `DirectUrlBuilt`. -/
theorem fromHttpUrl_claim_counterexample :
    claimPathEndsInWheelExtension "/flask-3.0.0-py3-none-any.whl/" = false ∧
    hasWheelExtension "/flask-3.0.0-py3-none-any.whl/" = true ∧
    Distribution.fromHttpUrl parseWheelFilename id "flask"
        ⟨"https", "example.org", "/flask-3.0.0-py3-none-any.whl/"⟩ none
        ⟨⟨"https", "example.org", "/flask-3.0.0-py3-none-any.whl/"⟩, none⟩ =
      .error (.invalidWheelFilename "") := by
  decide

/-- Claim C2 (amended): classification of a `file://` URL by
`Dist::from_file_url`.  A missing path is the `NotFound` error, any other
canonicalization failure surfaces as the underlying I/O error; a directory is
`DirectorySource` carrying the editable flag; a file with the wheel extension
first validates the URL's wheel filename (a differing parsed name is the
fatal `PackageNameMismatch`, taking precedence over `EditableFile`), then
rejects the editable flag with `EditableFile`, else is `PathBuilt`; any other
file is `EditableFile` when editable, else `PathSource`. -/
theorem fromFileUrl_classification (fs : FileSystem)
    (parse : String → Option WheelFilename) (decode : String → String)
    (name : PackageName) (path : String) (editable : Bool) (url : VerbatimUrl) :
    (fs.canonicalize path = .error .notFound →
      Distribution.fromFileUrl fs parse decode name path editable url =
        .error (.notFound url.toUrl)) ∧
    (∀ m, fs.canonicalize path = .error (.other m) →
      Distribution.fromFileUrl fs parse decode name path editable url =
        .error (.fsError (.other m))) ∧
    (∀ cp, fs.canonicalize path = .ok cp →
      (fs.isDir cp = true →
        Distribution.fromFileUrl fs parse decode name path editable url =
          .ok (.source (.directory ⟨name, url, cp, editable⟩))) ∧
      (fs.isDir cp = false →
        (hasWheelExtension cp = true →
          ∀ s fn, urlFilename decode url.url = .ok s → parse s = some fn →
            (fn.name ≠ name →
              Distribution.fromFileUrl fs parse decode name path editable url =
                .error (.packageNameMismatch name fn.name url.verbatim)) ∧
            (fn.name = name →
              (editable = true →
                Distribution.fromFileUrl fs parse decode name path editable url =
                  .error (.editableFile url)) ∧
              (editable = false →
                Distribution.fromFileUrl fs parse decode name path editable url =
                  .ok (.built (.path ⟨fn, url, cp⟩))))) ∧
        (hasWheelExtension cp = false →
          (editable = true →
            Distribution.fromFileUrl fs parse decode name path editable url =
              .error (.editableFile url)) ∧
          (editable = false →
            Distribution.fromFileUrl fs parse decode name path editable url =
              .ok (.source (.path ⟨name, url, cp⟩)))))) := by
  refine ⟨?_, ?_, ?_⟩
  · intro h
    simp [Distribution.fromFileUrl, h]
  · intro m h
    simp [Distribution.fromFileUrl, h]
  · intro cp hcp
    constructor
    · intro hdir
      simp [Distribution.fromFileUrl, hcp, hdir]
    · intro hdir
      constructor
      · intro hw s fn hs hp
        constructor
        · intro hname
          simp [Distribution.fromFileUrl, hcp, hdir, hw, hs, hp, hname]
        · intro hname
          constructor
          · intro hed
            simp [Distribution.fromFileUrl, hcp, hdir, hw, hs, hp, hname, hed]
          · intro hed
            simp [Distribution.fromFileUrl, hcp, hdir, hw, hs, hp, hname, hed]
      · intro hw
        constructor
        · intro hed
          simp [Distribution.fromFileUrl, hcp, hdir, hw, hed]
        · intro hed
          simp [Distribution.fromFileUrl, hcp, hdir, hw, hed]

/-- A concrete filesystem in which every path canonicalizes to itself and
nothing is a directory. -/
def flatFileFs : FileSystem where
  canonicalize := fun p => .ok p
  isDir := fun _ => false

/-- Witness for `fromFileUrl_classification`: a plain source archive. -/
theorem fromFileUrl_classification_witness :
    Distribution.fromFileUrl flatFileFs parseWheelFilename id "foo"
        "/src/foo.tar.gz" false ⟨⟨"file", "", "/src/foo.tar.gz"⟩, none⟩ =
      .ok (.source (.path ⟨"foo", ⟨⟨"file", "", "/src/foo.tar.gz"⟩, none⟩,
        "/src/foo.tar.gz"⟩)) :=
  (((fromFileUrl_classification flatFileFs parseWheelFilename id "foo"
      "/src/foo.tar.gz" false ⟨⟨"file", "", "/src/foo.tar.gz"⟩, none⟩).2.2
    "/src/foo.tar.gz" (by decide)).2 (by decide)).2 (by decide) |>.2 (by decide)

/-- Counterexample to claim C2 as stated: an existing wheel file whose
embedded name `bar` differs from the requirement `foo` does not yield
`PathBuilt` — it is the fatal `PackageNameMismatch` error (and with the
editable flag set it would still not be `EditableFile`). -/
theorem fromFileUrl_claim_counterexample :
    flatFileFs.isDir "/w/bar-1.0-py3-none-any.whl" = false ∧
    hasWheelExtension "/w/bar-1.0-py3-none-any.whl" = true ∧
    Distribution.fromFileUrl flatFileFs parseWheelFilename id "foo"
        "/w/bar-1.0-py3-none-any.whl" false
        ⟨⟨"file", "", "/w/bar-1.0-py3-none-any.whl"⟩, none⟩ =
      .error (.packageNameMismatch "foo" "bar" "file:///w/bar-1.0-py3-none-any.whl") := by
  decide

/-- A distribution identity (`DistributionId` from the crate's `id` module):
the fine-grained key for version-specific caches.  The `url` constructor
carries the canonicalized URL (`cache_key::CanonicalUrl`). -/
inductive DistributionId where
  | digest (h : HashDigest)
  | url (u : Url)
  | pathBuf (p : String)
  | relativeUrl (base url : String)
  | absoluteUrl (url : String)
deriving DecidableEq, Repr

/-- A resource identity (`ResourceId`): the coarse key for refresh-scoped
state.  The `url` constructor carries the looser `cache_key::RepositoryUrl`
canonicalization. -/
inductive ResourceId where
  | digest (h : HashDigest)
  | url (u : Url)
  | pathBuf (p : String)
  | relativeUrl (base url : String)
  | absoluteUrl (url : String)
deriving DecidableEq, Repr

/-- `impl Identifier for Url` (lib.rs lines 882-890), distribution side: the
strict canonicalization `canon` stands for the external
`cache_key::CanonicalUrl::new`. -/
def Url.distributionId (canon : Url → Url) (u : Url) : DistributionId :=
  .url (canon u)

/-- `impl Identifier for Url`, resource side: `repo` stands for the looser
external `cache_key::RepositoryUrl::new`. -/
def Url.resourceId (repo : Url → Url) (u : Url) : ResourceId :=
  .url (repo u)

/-- `impl Identifier for FileLocation` (lib.rs lines 920-940), distribution
side: locations are keyed by their verbatim strings or path. -/
def FileLocation.distributionId : FileLocation → DistributionId
  | .relativeUrl base url => .relativeUrl base url
  | .absoluteUrl url => .absoluteUrl url
  | .path p => .pathBuf p

/-- `impl Identifier for FileLocation`, resource side. -/
def FileLocation.resourceId : FileLocation → ResourceId
  | .relativeUrl base url => .relativeUrl base url
  | .absoluteUrl url => .absoluteUrl url
  | .path p => .pathBuf p

/-- `impl Identifier for File` (lib.rs lines 892-908), distribution side: the
first declared hash when present, else the identity of the file's location. -/
def File.distributionId (f : File) : DistributionId :=
  match f.hashes with
  | h :: _ => .digest h
  | [] => f.url.distributionId

/-- `impl Identifier for File`, resource side. -/
def File.resourceId (f : File) : ResourceId :=
  match f.hashes with
  | h :: _ => .digest h
  | [] => f.url.resourceId

/-- `impl Identifier for Path` (lib.rs lines 910-918), distribution side. -/
def pathDistributionId (p : String) : DistributionId :=
  .pathBuf p

/-- `impl Identifier for Path`, resource side. -/
def pathResourceId (p : String) : ResourceId :=
  .pathBuf p

/-- Claim C3: a registry file's two identities are digest-first — the first
declared hash when one exists, else derived from the file's URL; a bare URL's
distribution identity is its canonicalized URL while its resource identity
uses the looser repository canonicalization; a filesystem path is its own
identity. -/
theorem identifier_digest_first (canon repo : Url → Url) (f : File) (u : Url)
    (p : String) :
    (∀ h, f.hashes.head? = some h →
      f.distributionId = .digest h ∧ f.resourceId = .digest h) ∧
    (f.hashes.head? = none →
      f.distributionId = f.url.distributionId ∧
      f.resourceId = f.url.resourceId) ∧
    Url.distributionId canon u = .url (canon u) ∧
    Url.resourceId repo u = .url (repo u) ∧
    pathDistributionId p = .pathBuf p ∧
    pathResourceId p = .pathBuf p := by
  refine ⟨?_, ?_, rfl, rfl, rfl, rfl⟩
  · intro h hh
    cases he : f.hashes with
    | nil => rw [he] at hh; cases hh
    | cons x xs =>
      rw [he] at hh
      simp at hh
      subst hh
      simp [File.distributionId, File.resourceId, he]
  · intro hh
    cases he : f.hashes with
    | nil => simp [File.distributionId, File.resourceId, he]
    | cons x xs => rw [he] at hh; cases hh

/-- Witness for `identifier_digest_first`: a file carrying one digest is
keyed by that digest on both sides. -/
theorem identifier_digest_first_witness :
    ({ filename := "a-1.0.tar.gz", hashes := ["sha256:aa"], size := none,
       url := .absoluteUrl "https://example.org/a-1.0.tar.gz" } : File).distributionId =
      .digest "sha256:aa" ∧
    ({ filename := "a-1.0.tar.gz", hashes := ["sha256:aa"], size := none,
       url := .absoluteUrl "https://example.org/a-1.0.tar.gz" } : File).resourceId =
      .digest "sha256:aa" :=
  (identifier_digest_first id id
    { filename := "a-1.0.tar.gz", hashes := ["sha256:aa"], size := none,
      url := .absoluteUrl "https://example.org/a-1.0.tar.gz" }
    ⟨"https", "example.org", "/"⟩ "/tmp/x").1 "sha256:aa" rfl

/-- `RegistryBuiltDist::best_wheel` (lib.rs lines 514-519) indexes
`self.wheels[self.best_wheel_index]`; the partiality of the index access is
made explicit with an `Option`. -/
def RegistryBuiltDist.bestWheel? (d : RegistryBuiltDist) : Option RegistryBuiltWheel :=
  d.wheels[d.bestWheelIndex]?

/-- `Name for RegistryBuiltDist`, through `best_wheel`. -/
def RegistryBuiltDist.name? (d : RegistryBuiltDist) : Option PackageName :=
  d.bestWheel?.map (·.filename.name)

/-- `BuiltDist::version` for the registry variant, through `best_wheel`. -/
def RegistryBuiltDist.version? (d : RegistryBuiltDist) : Option String :=
  d.bestWheel?.map (·.filename.version)

/-- `RemoteSource for RegistryBuiltDist::filename`, through `best_wheel`. -/
def RegistryBuiltDist.filename? (d : RegistryBuiltDist) : Option String :=
  d.bestWheel?.map (·.file.filename)

/-- `RemoteSource for RegistryBuiltDist::size`, through `best_wheel`. -/
def RegistryBuiltDist.size? (d : RegistryBuiltDist) : Option (Option Nat) :=
  d.bestWheel?.map (·.file.size)

/-- `BuiltDist::index` for the registry variant, through `best_wheel`. -/
def RegistryBuiltDist.indexUrl? (d : RegistryBuiltDist) : Option String :=
  d.bestWheel?.map (·.index)

/-- `BuiltDist::file` for the registry variant, through `best_wheel`. -/
def RegistryBuiltDist.file? (d : RegistryBuiltDist) : Option File :=
  d.bestWheel?.map (·.file)

/-- `Identifier for RegistryBuiltWheel`, delegating to the file. -/
def RegistryBuiltWheel.distributionId (w : RegistryBuiltWheel) : DistributionId :=
  w.file.distributionId

/-- `Identifier for RegistryBuiltWheel`, resource side. -/
def RegistryBuiltWheel.resourceId (w : RegistryBuiltWheel) : ResourceId :=
  w.file.resourceId

/-- `Identifier for RegistryBuiltDist`, through `best_wheel`. -/
def RegistryBuiltDist.distributionId? (d : RegistryBuiltDist) : Option DistributionId :=
  d.bestWheel?.map (·.distributionId)

/-- `Identifier for RegistryBuiltDist`, resource side. -/
def RegistryBuiltDist.resourceId? (d : RegistryBuiltDist) : Option ResourceId :=
  d.bestWheel?.map (·.resourceId)

/-- Claim C8: under the documented invariant — a non-empty wheel list whose
best index is within bounds — `best_wheel` and every operation dispatching
through it (name, version, filename, size, index, file, distribution
identity, resource identity) produces a value; the index access never goes
out of range. -/
theorem bestWheel_within_bounds (d : RegistryBuiltDist)
    (hne : d.wheels ≠ []) (hidx : d.bestWheelIndex < d.wheels.length) :
    d.bestWheel?.isSome ∧ d.name?.isSome ∧ d.version?.isSome ∧
    d.filename?.isSome ∧ d.size?.isSome ∧ d.indexUrl?.isSome ∧
    d.file?.isSome ∧ d.distributionId?.isSome ∧ d.resourceId?.isSome := by
  have h : d.bestWheel?.isSome := by
    simp [RegistryBuiltDist.bestWheel?, hidx]
  refine ⟨h, ?_, ?_, ?_, ?_, ?_, ?_, ?_, ?_⟩ <;>
    simp [RegistryBuiltDist.name?, RegistryBuiltDist.version?,
      RegistryBuiltDist.filename?, RegistryBuiltDist.size?,
      RegistryBuiltDist.indexUrl?, RegistryBuiltDist.file?,
      RegistryBuiltDist.distributionId?, RegistryBuiltDist.resourceId?, h]

/-- Witness for `bestWheel_within_bounds` at a one-wheel distribution. -/
theorem bestWheel_within_bounds_witness :
    ({ wheels := [⟨⟨"flask", "3.0.0"⟩,
        { filename := "flask-3.0.0-py3-none-any.whl", hashes := [],
          size := some 1024,
          url := .absoluteUrl "https://example.org/flask-3.0.0-py3-none-any.whl" },
        "https://pypi.org/simple"⟩],
       bestWheelIndex := 0, sdist := none } : RegistryBuiltDist).bestWheel?.isSome ∧
    ({ wheels := [⟨⟨"flask", "3.0.0"⟩,
        { filename := "flask-3.0.0-py3-none-any.whl", hashes := [],
          size := some 1024,
          url := .absoluteUrl "https://example.org/flask-3.0.0-py3-none-any.whl" },
        "https://pypi.org/simple"⟩],
       bestWheelIndex := 0, sdist := none } : RegistryBuiltDist).name?.isSome ∧
    ({ wheels := [⟨⟨"flask", "3.0.0"⟩,
        { filename := "flask-3.0.0-py3-none-any.whl", hashes := [],
          size := some 1024,
          url := .absoluteUrl "https://example.org/flask-3.0.0-py3-none-any.whl" },
        "https://pypi.org/simple"⟩],
       bestWheelIndex := 0, sdist := none } : RegistryBuiltDist).version?.isSome ∧
    ({ wheels := [⟨⟨"flask", "3.0.0"⟩,
        { filename := "flask-3.0.0-py3-none-any.whl", hashes := [],
          size := some 1024,
          url := .absoluteUrl "https://example.org/flask-3.0.0-py3-none-any.whl" },
        "https://pypi.org/simple"⟩],
       bestWheelIndex := 0, sdist := none } : RegistryBuiltDist).filename?.isSome ∧
    ({ wheels := [⟨⟨"flask", "3.0.0"⟩,
        { filename := "flask-3.0.0-py3-none-any.whl", hashes := [],
          size := some 1024,
          url := .absoluteUrl "https://example.org/flask-3.0.0-py3-none-any.whl" },
        "https://pypi.org/simple"⟩],
       bestWheelIndex := 0, sdist := none } : RegistryBuiltDist).size?.isSome ∧
    ({ wheels := [⟨⟨"flask", "3.0.0"⟩,
        { filename := "flask-3.0.0-py3-none-any.whl", hashes := [],
          size := some 1024,
          url := .absoluteUrl "https://example.org/flask-3.0.0-py3-none-any.whl" },
        "https://pypi.org/simple"⟩],
       bestWheelIndex := 0, sdist := none } : RegistryBuiltDist).indexUrl?.isSome ∧
    ({ wheels := [⟨⟨"flask", "3.0.0"⟩,
        { filename := "flask-3.0.0-py3-none-any.whl", hashes := [],
          size := some 1024,
          url := .absoluteUrl "https://example.org/flask-3.0.0-py3-none-any.whl" },
        "https://pypi.org/simple"⟩],
       bestWheelIndex := 0, sdist := none } : RegistryBuiltDist).file?.isSome ∧
    ({ wheels := [⟨⟨"flask", "3.0.0"⟩,
        { filename := "flask-3.0.0-py3-none-any.whl", hashes := [],
          size := some 1024,
          url := .absoluteUrl "https://example.org/flask-3.0.0-py3-none-any.whl" },
        "https://pypi.org/simple"⟩],
       bestWheelIndex := 0, sdist := none } : RegistryBuiltDist).distributionId?.isSome ∧
    ({ wheels := [⟨⟨"flask", "3.0.0"⟩,
        { filename := "flask-3.0.0-py3-none-any.whl", hashes := [],
          size := some 1024,
          url := .absoluteUrl "https://example.org/flask-3.0.0-py3-none-any.whl" },
        "https://pypi.org/simple"⟩],
       bestWheelIndex := 0, sdist := none } : RegistryBuiltDist).resourceId?.isSome :=
  bestWheel_within_bounds _ (by decide) (by decide)

/-- A named PEP 508 requirement (`distribution_types::Requirement`); only the
name is inspected by the embedded aggregation code. -/
structure NamedRequirement where
  name : PackageName
deriving DecidableEq, Repr

/-- `UnresolvedRequirement`: either parsed with a name or an unnamed
URL-style requirement. -/
inductive UnresolvedRequirement where
  | named (r : NamedRequirement)
  | unnamed (url : String)
deriving DecidableEq, Repr

/-- `UnresolvedRequirementSpecification`: a requirement entry with its
declared hashes. -/
structure UnresolvedRequirementSpecification where
  requirement : UnresolvedRequirement
  hashes : List String
deriving DecidableEq, Repr

/-- `requirements_txt::EditableRequirement`: a URL and local path (extras and
origin are not inspected by the embedded code). -/
structure EditableRequirement where
  url : String
  path : String
deriving DecidableEq, Repr

/-- `RequirementsSpecification` (specification.rs lines 27-55), the
normalized output of aggregation.  Index URLs are carried as strings;
`NoBinary`/`NoBuild` (external `uv-configuration` crate) are modelled as the
lists of their accumulated flag atoms, whose `extend` is concatenation. -/
structure RequirementsSpecification where
  project : Option PackageName := none
  requirements : List UnresolvedRequirementSpecification := []
  constraints : List NamedRequirement := []
  overrides : List UnresolvedRequirementSpecification := []
  editables : List EditableRequirement := []
  sourceTrees : List String := []
  extras : List String := []
  indexUrl : Option String := none
  extraIndexUrls : List String := []
  noIndex : Bool := false
  findLinks : List String := []
  noBinary : List String := []
  noBuild : List String := []
deriving DecidableEq, Repr

/-- The fatal aggregation errors of `from_sources`. -/
inductive AggError where
  | multipleIndexUrls (existing incoming : String)
  | unnamedConstraint (url : String)
deriving DecidableEq, Repr

/-- The index-URL check shared by the three loops of `from_sources`
(specification.rs lines 311-320, 346-355, 370-379): a source declaring an
index URL whose canonicalization (`canon`, standing for the external
`cache_key::CanonicalUrl::new`) differs from the one already recorded is
fatal; otherwise the incoming URL is recorded. -/
def mergeIndexUrl (canon : String → String) (spec source : RequirementsSpecification) :
    Except AggError RequirementsSpecification :=
  match source.indexUrl with
  | none => .ok spec
  | some indexUrl =>
    match spec.indexUrl with
    | some existing =>
      if canon indexUrl ≠ canon existing then
        .error (.multipleIndexUrls existing indexUrl)
      else
        .ok { spec with indexUrl := some indexUrl }
    | none => .ok { spec with indexUrl := some indexUrl }

/-- The trailing field updates shared by the three loops of `from_sources`:
`no_index` ORs, and the extra indexes, find-links and binary/build filters
extend. -/
def mergeCommonTail (spec source : RequirementsSpecification) :
    RequirementsSpecification :=
  { spec with
    noIndex := spec.noIndex || source.noIndex,
    extraIndexUrls := spec.extraIndexUrls ++ source.extraIndexUrls,
    findLinks := spec.findLinks ++ source.findLinks,
    noBinary := spec.noBinary ++ source.noBinary,
    noBuild := spec.noBuild ++ source.noBuild }

/-- One iteration of the requirements loop of `from_sources`
(specification.rs lines 297-326). -/
def mergeRequirementSource (canon : String → String)
    (spec source : RequirementsSpecification) :
    Except AggError RequirementsSpecification :=
  let spec := { spec with
    requirements := spec.requirements ++ source.requirements,
    constraints := spec.constraints ++ source.constraints,
    overrides := spec.overrides ++ source.overrides,
    extras := spec.extras ++ source.extras,
    editables := spec.editables ++ source.editables,
    sourceTrees := spec.sourceTrees ++ source.sourceTrees }
  let spec := if spec.project.isNone then { spec with project := source.project } else spec
  match mergeIndexUrl canon spec source with
  | .error e => .error e
  | .ok spec => .ok (mergeCommonTail spec source)

/-- The constraint-entry extraction of the constraints loop: named entries
become constraints, an unnamed entry is fatal. -/
def constraintEntries : List UnresolvedRequirementSpecification →
    Except AggError (List NamedRequirement)
  | [] => .ok []
  | e :: rest =>
    match e.requirement with
    | .named r =>
      match constraintEntries rest with
      | .error err => .error err
      | .ok v => .ok (r :: v)
    | .unnamed u => .error (.unnamedConstraint u)

/-- One iteration of the constraints loop of `from_sources`
(specification.rs lines 330-361). -/
def mergeConstraintSource (canon : String → String)
    (spec source : RequirementsSpecification) :
    Except AggError RequirementsSpecification :=
  match constraintEntries source.requirements with
  | .error e => .error e
  | .ok entries =>
    let spec := { spec with
      constraints := spec.constraints ++ entries ++ source.constraints }
    match mergeIndexUrl canon spec source with
    | .error e => .error e
    | .ok spec => .ok (mergeCommonTail spec source)

/-- One iteration of the overrides loop of `from_sources`
(specification.rs lines 365-385). -/
def mergeOverrideSource (canon : String → String)
    (spec source : RequirementsSpecification) :
    Except AggError RequirementsSpecification :=
  let spec := { spec with
    overrides := spec.overrides ++ source.requirements ++ source.overrides }
  match mergeIndexUrl canon spec source with
  | .error e => .error e
  | .ok spec => .ok (mergeCommonTail spec source)

/-- Error-propagating sequencing (the `?` operator). -/
def exceptThen {a b : Type} (x : Except AggError a) (f : a → Except AggError b) :
    Except AggError b :=
  match x with
  | .error e => .error e
  | .ok v => f v

/-- The imperative accumulation of one `from_sources` loop over its list of
(already parsed) sources. -/
def foldMerge
    (m : RequirementsSpecification → RequirementsSpecification →
      Except AggError RequirementsSpecification) :
    RequirementsSpecification → List RequirementsSpecification →
    Except AggError RequirementsSpecification
  | spec, [] => .ok spec
  | spec, s :: rest =>
    match m spec s with
    | .error e => .error e
    | .ok spec => foldMerge m spec rest

/-- Embedding of `RequirementsSpecification::from_sources` (specification.rs
lines 284-388) over sources already parsed by `from_source`: the
requirements loop, then the constraints loop, then the overrides loop. -/
def fromSources (canon : String → String)
    (requirements constraints overrides : List RequirementsSpecification) :
    Except AggError RequirementsSpecification :=
  exceptThen (foldMerge (mergeRequirementSource canon) {} requirements) fun spec =>
    exceptThen (foldMerge (mergeConstraintSource canon) spec constraints) fun spec =>
      foldMerge (mergeOverrideSource canon) spec overrides

/-- The pure index-URL automaton that the three loops implement. -/
def indexFoldStep (canon : String → String) (acc : Option String)
    (incoming : Option String) : Except AggError (Option String) :=
  match incoming with
  | none => .ok acc
  | some indexUrl =>
    match acc with
    | some existing =>
      if canon indexUrl ≠ canon existing then
        .error (.multipleIndexUrls existing indexUrl)
      else
        .ok (some indexUrl)
    | none => .ok (some indexUrl)

/-- Iterated [`indexFoldStep`]. -/
def indexFold (canon : String → String) :
    Option String → List (Option String) → Except AggError (Option String)
  | acc, [] => .ok acc
  | acc, o :: rest =>
    match indexFoldStep canon acc o with
    | .error e => .error e
    | .ok acc => indexFold canon acc rest

/-- Agreement between a loop result and the index automaton: identical errors
and on success an identical recorded index URL. -/
def indexAgrees (x : Except AggError RequirementsSpecification)
    (y : Except AggError (Option String)) : Prop :=
  match x, y with
  | .ok s, .ok o => s.indexUrl = o
  | .error e, .error e' => e = e'
  | _, _ => False

theorem mergeIndexUrl_agrees (canon : String → String)
    (spec source : RequirementsSpecification) :
    indexAgrees (mergeIndexUrl canon spec source)
      (indexFoldStep canon spec.indexUrl source.indexUrl) := by
  unfold mergeIndexUrl indexFoldStep
  cases hsi : source.indexUrl with
  | none => simp [indexAgrees]
  | some u =>
    cases hpi : spec.indexUrl with
    | none => simp [indexAgrees]
    | some ex =>
      by_cases hc : canon u ≠ canon ex <;> simp [hc, indexAgrees]

theorem mergeShape_agrees (canon : String → String)
    (x source : RequirementsSpecification) (acc : Option String)
    (hx : x.indexUrl = acc) :
    indexAgrees
      (match mergeIndexUrl canon x source with
       | .error e => .error e
       | .ok s => .ok (mergeCommonTail s source))
      (indexFoldStep canon acc source.indexUrl) := by
  subst hx
  have hA := mergeIndexUrl_agrees canon x source
  cases hm : mergeIndexUrl canon x source <;>
    cases hs : indexFoldStep canon x.indexUrl source.indexUrl <;>
      rw [hm, hs] at hA <;> simp [indexAgrees] at hA ⊢ <;>
        simp [mergeCommonTail, hA]

theorem mergeRequirementSource_agrees (canon : String → String)
    (spec source : RequirementsSpecification) :
    indexAgrees (mergeRequirementSource canon spec source)
      (indexFoldStep canon spec.indexUrl source.indexUrl) := by
  simp only [mergeRequirementSource]
  exact mergeShape_agrees canon _ source spec.indexUrl (by split <;> rfl)

theorem constraintEntries_ok (l : List UnresolvedRequirementSpecification)
    (h : ∀ e ∈ l, ∃ r, e.requirement = .named r) :
    ∃ v, constraintEntries l = .ok v := by
  induction l with
  | nil => exact ⟨[], rfl⟩
  | cons e rest ih =>
    obtain ⟨r, hr⟩ := h e (List.mem_cons_self _ _)
    obtain ⟨v, hv⟩ := ih (fun e' he' => h e' (List.mem_cons_of_mem _ he'))
    exact ⟨r :: v, by simp [constraintEntries, hr, hv]⟩

theorem mergeConstraintSource_agrees (canon : String → String)
    (spec source : RequirementsSpecification)
    (h : ∀ e ∈ source.requirements, ∃ r, e.requirement = .named r) :
    indexAgrees (mergeConstraintSource canon spec source)
      (indexFoldStep canon spec.indexUrl source.indexUrl) := by
  obtain ⟨v, hv⟩ := constraintEntries_ok source.requirements h
  simp only [mergeConstraintSource, hv]
  exact mergeShape_agrees canon _ source spec.indexUrl rfl

theorem mergeOverrideSource_agrees (canon : String → String)
    (spec source : RequirementsSpecification) :
    indexAgrees (mergeOverrideSource canon spec source)
      (indexFoldStep canon spec.indexUrl source.indexUrl) := by
  simp only [mergeOverrideSource]
  exact mergeShape_agrees canon _ source spec.indexUrl rfl

theorem foldMerge_agrees (canon : String → String)
    (m : RequirementsSpecification → RequirementsSpecification →
      Except AggError RequirementsSpecification) :
    ∀ (l : List RequirementsSpecification) (spec : RequirementsSpecification),
    (∀ sp src, src ∈ l →
      indexAgrees (m sp src) (indexFoldStep canon sp.indexUrl src.indexUrl)) →
    indexAgrees (foldMerge m spec l)
      (indexFold canon spec.indexUrl (l.map (·.indexUrl))) := by
  intro l
  induction l with
  | nil => intro spec _; simp [foldMerge, indexFold, indexAgrees]
  | cons s rest ih =>
    intro spec h
    have hs := h spec s (List.mem_cons_self _ _)
    simp only [foldMerge, indexFold, List.map_cons]
    cases hm : m spec s <;>
      cases hstep : indexFoldStep canon spec.indexUrl s.indexUrl <;>
        rw [hm, hstep] at hs <;> simp [indexAgrees] at hs
    · simp [indexAgrees, hs]
    · rename_i spec' acc'
      rw [← hs]
      exact ih spec' (fun sp src hsrc => h sp src (List.mem_cons_of_mem _ hsrc))

theorem indexFold_append (canon : String → String) (acc : Option String)
    (l₁ l₂ : List (Option String)) :
    indexFold canon acc (l₁ ++ l₂) =
      exceptThen (indexFold canon acc l₁) (fun a => indexFold canon a l₂) := by
  induction l₁ generalizing acc with
  | nil => simp [indexFold, exceptThen]
  | cons o rest ih =>
    simp only [List.cons_append, indexFold]
    cases indexFoldStep canon acc o with
    | error e => rfl
    | ok a => exact ih a

/-- All pairs of declared index URLs agree after canonicalization. -/
def allCanonEqual (canon : String → String) (l : List String) : Prop :=
  ∀ u ∈ l, ∀ v ∈ l, canon u = canon v

instance (canon : String → String) (l : List String) :
    Decidable (allCanonEqual canon l) := by
  unfold allCanonEqual
  infer_instance

/-- The recorded index URL after a successful fold: the last non-empty
declaration, else the starting accumulator. -/
def lastIndexUrl (acc : Option String) (opts : List (Option String)) : Option String :=
  match (opts.filterMap id).getLast? with
  | some v => some v
  | none => acc

theorem getLast?_cons_eq {α : Type} (a : α) (l : List α) :
    (a :: l).getLast? = match l.getLast? with | some v => some v | none => some a := by
  cases l with
  | nil => rfl
  | cons b bs =>
    rw [List.getLast?_cons_cons]
    cases hg : (b :: bs).getLast? with
    | none =>
      exfalso
      have : (b :: bs).getLast?.isSome := List.getLast?_isSome.mpr (by simp)
      rw [hg] at this
      cases this
    | some v => rfl

theorem lastIndexUrl_cons_none (acc : Option String) (rest : List (Option String)) :
    lastIndexUrl acc (none :: rest) = lastIndexUrl acc rest := by
  simp [lastIndexUrl, List.filterMap_cons]

theorem lastIndexUrl_cons_some (acc : Option String) (u : String)
    (rest : List (Option String)) :
    lastIndexUrl acc (some u :: rest) = lastIndexUrl (some u) rest := by
  simp only [lastIndexUrl, List.filterMap_cons, id]
  rw [getLast?_cons_eq]
  cases (rest.filterMap id).getLast? <;> rfl

theorem indexFold_spec (canon : String → String) :
    ∀ (opts : List (Option String)) (acc : Option String),
    (allCanonEqual canon (acc.toList ++ opts.filterMap id) →
      indexFold canon acc opts = .ok (lastIndexUrl acc opts)) ∧
    (¬ allCanonEqual canon (acc.toList ++ opts.filterMap id) →
      ∃ a b, indexFold canon acc opts = .error (.multipleIndexUrls a b) ∧
        canon a ≠ canon b ∧ a ∈ acc.toList ++ opts.filterMap id ∧
        b ∈ acc.toList ++ opts.filterMap id) := by
  intro opts
  induction opts with
  | nil =>
    intro acc
    constructor
    · intro _
      simp [indexFold, lastIndexUrl]
    · intro hne
      exfalso
      apply hne
      intro u hu v hv
      cases acc <;> simp_all
  | cons o rest ih =>
    intro acc
    cases o with
    | none =>
      have h := ih acc
      have hstep : indexFold canon acc (none :: rest) = indexFold canon acc rest := by
        simp [indexFold, indexFoldStep]
      have hfm : acc.toList ++ (none :: rest).filterMap id =
          acc.toList ++ rest.filterMap id := by
        simp [List.filterMap_cons]
      rw [hstep, hfm, lastIndexUrl_cons_none]
      exact h
    | some u =>
      cases acc with
      | none =>
        have h := ih (some u)
        have hstep : indexFold canon none (some u :: rest) =
            indexFold canon (some u) rest := by
          simp [indexFold, indexFoldStep]
        have hfm : (Option.toList (none : Option String)) ++ (some u :: rest).filterMap id =
            (some u).toList ++ rest.filterMap id := by
          simp [List.filterMap_cons]
        rw [hstep, hfm, lastIndexUrl_cons_some]
        exact h
      | some ex =>
        by_cases hc : canon u = canon ex
        · have h := ih (some u)
          have hlist : ∀ (w : String),
              w ∈ (some ex).toList ++ (some u :: rest).filterMap id ↔
                w = ex ∨ w ∈ (some u).toList ++ rest.filterMap id := by
            intro w
            simp [List.filterMap_cons]
          have hiff : allCanonEqual canon ((some ex).toList ++ (some u :: rest).filterMap id) ↔
              allCanonEqual canon ((some u).toList ++ rest.filterMap id) := by
            constructor
            · intro hall w hw v hv
              exact hall w ((hlist w).mpr (Or.inr hw)) v ((hlist v).mpr (Or.inr hv))
            · intro hall w hw v hv
              have hcan : ∀ t, t ∈ (some ex).toList ++ (some u :: rest).filterMap id →
                  canon t = canon u := by
                intro t ht
                rcases (hlist t).mp ht with rfl | htt
                · exact hc.symm
                · exact hall t htt u (by simp)
              rw [hcan w hw, hcan v hv]
          have hstep : indexFold canon (some ex) (some u :: rest) =
              indexFold canon (some u) rest := by
            simp [indexFold, indexFoldStep, hc]
          constructor
          · intro hall
            rw [hstep, lastIndexUrl_cons_some]
            exact h.1 (hiff.mp hall)
          · intro hne
            obtain ⟨a, b, hfold, hab, ha, hb⟩ := h.2 (fun hall => hne (hiff.mpr hall))
            refine ⟨a, b, by rw [hstep]; exact hfold, hab, ?_, ?_⟩
            · exact (hlist a).mpr (Or.inr ha)
            · exact (hlist b).mpr (Or.inr hb)
        · constructor
          · intro hall
            exfalso
            apply hc
            exact hall u (by simp [List.filterMap_cons]) ex (by simp)
          · intro _
            refine ⟨ex, u, ?_, fun h' => hc h'.symm, by simp, by simp [List.filterMap_cons]⟩
            simp [indexFold, indexFoldStep, hc]

theorem indexAgrees_chain
    (x : Except AggError RequirementsSpecification)
    (y : Except AggError (Option String))
    (f : RequirementsSpecification → Except AggError RequirementsSpecification)
    (g : Option String → Except AggError (Option String))
    (hxy : indexAgrees x y)
    (hfg : ∀ s o, s.indexUrl = o → indexAgrees (f s) (g o)) :
    indexAgrees (exceptThen x f) (exceptThen y g) := by
  cases x <;> cases y <;> simp [indexAgrees, exceptThen] at hxy ⊢
  · exact hxy
  · exact hfg _ _ hxy

theorem fromSources_agrees (canon : String → String)
    (rs cs os : List RequirementsSpecification)
    (hnamed : ∀ s ∈ cs, ∀ e ∈ s.requirements, ∃ r, e.requirement = .named r) :
    indexAgrees (fromSources canon rs cs os)
      (indexFold canon none ((rs ++ cs ++ os).map (·.indexUrl))) := by
  have hassoc : ∀ {a : Type} (x : Except AggError a)
      (f : a → Except AggError (Option String))
      (g : Option String → Except AggError (Option String)),
      exceptThen (exceptThen x f) g = exceptThen x (fun v => exceptThen (f v) g) := by
    intro a x f g
    cases x <;> rfl
  have h1 := foldMerge_agrees canon (mergeRequirementSource canon) rs {}
    (fun sp src _ => mergeRequirementSource_agrees canon sp src)
  have hnone : ({} : RequirementsSpecification).indexUrl = none := rfl
  rw [hnone] at h1
  unfold fromSources
  rw [List.map_append, List.map_append, indexFold_append, indexFold_append, hassoc]
  refine indexAgrees_chain _ _ _ _ h1 ?_
  intro s o hso
  have h2 := foldMerge_agrees canon (mergeConstraintSource canon) cs s
    (fun sp src hsrc => mergeConstraintSource_agrees canon sp src (hnamed src hsrc))
  rw [hso] at h2
  refine indexAgrees_chain _ _ _ _ h2 ?_
  intro s' o' hso'
  have h3 := foldMerge_agrees canon (mergeOverrideSource canon) os s'
    (fun sp src _ => mergeOverrideSource_agrees canon sp src)
  rw [hso'] at h3
  exact h3

/-- Claim C4 (amended): `from_sources` fails — specifically with the
"Multiple index URLs specified" error — exactly when two of its sources
(requirement, constraint or override) declare index URLs whose
canonicalizations differ, provided no constraint source carries an unnamed
entry (which is a distinct fatal error); sources declaring canonically equal
index URLs are accepted, and the LAST non-empty declared index URL (all of
them being canonically equal) becomes the specification's index URL. -/
theorem fromSources_index_url (canon : String → String)
    (requirements constraints overrides : List RequirementsSpecification)
    (hnamed : ∀ s ∈ constraints, ∀ e ∈ s.requirements, ∃ r, e.requirement = .named r) :
    (allCanonEqual canon
        ((requirements ++ constraints ++ overrides).filterMap (·.indexUrl)) →
      ∃ spec, fromSources canon requirements constraints overrides = .ok spec ∧
        spec.indexUrl =
          ((requirements ++ constraints ++ overrides).filterMap (·.indexUrl)).getLast?) ∧
    (¬ allCanonEqual canon
        ((requirements ++ constraints ++ overrides).filterMap (·.indexUrl)) →
      ∃ a b, fromSources canon requirements constraints overrides =
          .error (.multipleIndexUrls a b) ∧ canon a ≠ canon b ∧
        a ∈ (requirements ++ constraints ++ overrides).filterMap (·.indexUrl) ∧
        b ∈ (requirements ++ constraints ++ overrides).filterMap (·.indexUrl)) := by
  have hag := fromSources_agrees canon requirements constraints overrides hnamed
  have hspec := indexFold_spec canon
    ((requirements ++ constraints ++ overrides).map (·.indexUrl)) none
  have hfm : ((requirements ++ constraints ++ overrides).map (·.indexUrl)).filterMap id =
      (requirements ++ constraints ++ overrides).filterMap (·.indexUrl) := by
    rw [List.filterMap_map]
    rfl
  have hlast : lastIndexUrl none
      ((requirements ++ constraints ++ overrides).map (·.indexUrl)) =
      ((requirements ++ constraints ++ overrides).filterMap (·.indexUrl)).getLast? := by
    unfold lastIndexUrl
    rw [hfm]
    cases ((requirements ++ constraints ++ overrides).filterMap (·.indexUrl)).getLast? <;> rfl
  constructor
  · intro hall
    have h1 := hspec.1 (by simpa [hfm] using hall)
    rw [h1] at hag
    cases hr : fromSources canon requirements constraints overrides with
    | error e =>
      rw [hr] at hag
      simp only [indexAgrees] at hag
    | ok spec =>
      rw [hr] at hag
      simp only [indexAgrees] at hag
      exact ⟨spec, rfl, by rw [hag, hlast]⟩
  · intro hne
    obtain ⟨a, b, hfold, hab, ha, hb⟩ := hspec.2 (by simpa [hfm] using hne)
    rw [hfold] at hag
    cases hr : fromSources canon requirements constraints overrides with
    | ok spec =>
      rw [hr] at hag
      simp only [indexAgrees] at hag
    | error e =>
      rw [hr] at hag
      simp only [indexAgrees] at hag
      subst hag
      simp only [Option.toList, List.nil_append, hfm] at ha hb
      exact ⟨a, b, rfl, hab, ha, hb⟩

/-- A concrete canonicalization for witnesses: strip one trailing slash
(cosmetic trailing-slash normalization, one of the normalizations the spec
lists for `CanonicalUrl`). -/
def canonStripSlash (s : String) : String :=
  if strEndsWith s "/" then String.mk (s.data.take (s.data.length - 1)) else s

/-- Witness for `fromSources_index_url`: one requirement source declaring one
index URL aggregates successfully and records it. -/
theorem fromSources_index_url_witness :
    ∃ spec, fromSources canonStripSlash
        [{ indexUrl := some "https://pypi.org/simple" }] [] [] = .ok spec ∧
      spec.indexUrl =
        ((([{ indexUrl := some "https://pypi.org/simple" }] :
            List RequirementsSpecification) ++ [] ++ []).filterMap
          (fun s : RequirementsSpecification => s.indexUrl)).getLast? :=
  (fromSources_index_url canonStripSlash
    [{ indexUrl := some "https://pypi.org/simple" }] [] []
    (fun s hs => absurd hs (List.not_mem_nil s))).1 (by decide)

/-- Counterexample to claim C4 as stated: two sources declaring the
canonically equal index URLs `https://pypi.org/simple` and
`https://pypi.org/simple/` are accepted, but the specification records the
LAST declaration verbatim, not the first — so the first non-empty index URL
does not determine the specification's index URL. -/
theorem fromSources_claim_counterexample :
    (fromSources canonStripSlash
        [{ indexUrl := some "https://pypi.org/simple" },
         { indexUrl := some "https://pypi.org/simple/" }] [] []).map
        (fun s => s.indexUrl) = .ok (some "https://pypi.org/simple/") ∧
    canonStripSlash "https://pypi.org/simple" =
      canonStripSlash "https://pypi.org/simple/" ∧
    "https://pypi.org/simple/" ≠ "https://pypi.org/simple" := by
  decide

theorem length_filter_mono {α : Type} (p q : α → Bool)
    (hpq : ∀ a, q a = true → p a = true) (l : List α) :
    (l.filter q).length ≤ (l.filter p).length := by
  induction l with
  | nil => simp
  | cons a as ih =>
    by_cases hqa : q a = true
    · have hpa := hpq a hqa
      simp only [List.filter_cons, hqa, hpa, if_true]
      simpa using ih
    · have hqa' : q a = false := by revert hqa; cases q a <;> simp
      cases hpa : p a <;> simp only [List.filter_cons, hqa', hpa] <;> simp <;> omega

theorem length_filter_lt {α : Type} (p q : α → Bool)
    (hpq : ∀ a, q a = true → p a = true) (l : List α) (x : α)
    (hx : x ∈ l) (hp : p x = true) (hq : q x = false) :
    (l.filter q).length < (l.filter p).length := by
  obtain ⟨l₁, l₂, rfl⟩ := List.append_of_mem hx
  rw [List.filter_append, List.filter_append, List.length_append, List.length_append,
    List.filter_cons, List.filter_cons, hp, hq]
  have h1 := length_filter_mono p q hpq l₁
  have h2 := length_filter_mono p q hpq l₂
  simp only [if_true, if_false]
  simp
  omega

/-- The source of one lowered project requirement, as matched by the
traversal in `parse_direct_pyproject_toml`: either a local path with an
editable flag (the lowering of a workspace-internal reference) or anything
else. -/
inductive RequirementSource where
  | path (path : String) (editable : Bool) (url : String)
  | registry
deriving DecidableEq, Repr

/-- One lowered requirement of a workspace member. -/
structure WorkspaceRequirement where
  name : PackageName
  source : RequirementSource
deriving DecidableEq, Repr

/-- Modelled from the spec: the PEP 621 lowering (`Pep621Metadata::try_from`,
in the crate's absent `pyproject` module) which turns each member's
`pyproject.toml` into requirements — with workspace-internal references
rendered as editable path requirements — is modelled by equipping each
workspace member directly with its lowered requirement list. -/
structure WorkspacePackage where
  name : PackageName
  requirements : List WorkspaceRequirement
deriving DecidableEq, Repr

/-- The workspace's member map (`Workspace::packages`). -/
abbrev WorkspacePackages := List WorkspacePackage

/-- Lookup of a member by package name (`BTreeMap::get`). -/
def lookupPackage (pkgs : WorkspacePackages) (n : PackageName) :
    Option WorkspacePackage :=
  pkgs.find? (fun p => p.name = n)

/-- Every package name occurring in some member's requirements; only used to
measure the traversal. -/
def allRequirementNames (pkgs : WorkspacePackages) : List PackageName :=
  (pkgs.map (fun p => p.requirements.map (fun r => r.name))).flatten

/-- Requirement names not yet marked seen; the traversal strictly shrinks
this count whenever it enqueues. -/
def unseenCount (pkgs : WorkspacePackages) (seen : List PackageName) : Nat :=
  ((allRequirementNames pkgs).filter (fun n => ! seen.contains n)).length

/-- Result of partitioning one member's requirements (the inner `for` loop of
`parse_direct_pyproject_toml`, specification.rs lines 247-271). -/
structure PartitionResult where
  editables : List EditableRequirement
  plain : List UnresolvedRequirementSpecification
  seen : List PackageName
  enqueued : List PackageName
deriving DecidableEq, Repr

/-- The inner loop: editable path requirements are emitted as editables and
enqueued when first seen; everything else becomes an ordinary requirement. -/
def partitionRequirements : List WorkspaceRequirement → List PackageName →
    PartitionResult
  | [], seen => ⟨[], [], seen, []⟩
  | r :: rest, seen =>
    match r.source with
    | .path p true u =>
      if seen.contains r.name then
        let res := partitionRequirements rest seen
        ⟨⟨u, p⟩ :: res.editables, res.plain, res.seen, res.enqueued⟩
      else
        let res := partitionRequirements rest (r.name :: seen)
        ⟨⟨u, p⟩ :: res.editables, res.plain, res.seen, r.name :: res.enqueued⟩
    | _ =>
      let res := partitionRequirements rest seen
      ⟨res.editables, ⟨.named ⟨r.name⟩, []⟩ :: res.plain, res.seen, res.enqueued⟩

theorem partitionRequirements_seen (reqs : List WorkspaceRequirement) :
    ∀ seen : List PackageName,
      (partitionRequirements reqs seen).seen =
        (partitionRequirements reqs seen).enqueued.reverse ++ seen := by
  induction reqs with
  | nil => intro seen; simp [partitionRequirements]
  | cons r rest ih =>
    intro seen
    cases hs : r.source with
    | path p ed u =>
      cases ed with
      | true =>
        by_cases hc : r.name ∈ seen
        · simp [partitionRequirements, hs, hc, ih seen]
        · simp only [partitionRequirements, hs]
          rw [if_neg (by simpa using hc)]
          simp only []
          rw [ih (r.name :: seen)]
          simp
      | false => simp [partitionRequirements, hs, ih seen]
    | registry => simp [partitionRequirements, hs, ih seen]

theorem partitionRequirements_enqueued (reqs : List WorkspaceRequirement) :
    ∀ (seen : List PackageName) (x : PackageName),
      x ∈ (partitionRequirements reqs seen).enqueued →
      x ∈ reqs.map (fun r => r.name) ∧ seen.contains x = false := by
  induction reqs with
  | nil => intro seen x hx; simp [partitionRequirements] at hx
  | cons r rest ih =>
    intro seen x hx
    cases hs : r.source with
    | path p ed u =>
      cases ed with
      | true =>
        by_cases hc : r.name ∈ seen
        · rw [partitionRequirements] at hx
          simp only [hs] at hx
          rw [if_pos (by simpa using hc)] at hx
          obtain ⟨h1, h2⟩ := ih seen x hx
          exact ⟨by simp [h1], h2⟩
        · rw [partitionRequirements] at hx
          simp only [hs] at hx
          rw [if_neg (by simpa using hc)] at hx
          simp only [List.mem_cons] at hx
          rcases hx with rfl | hx
          · exact ⟨by simp, by simpa using hc⟩
          · obtain ⟨h1, h2⟩ := ih (r.name :: seen) x hx
            simp only [List.contains_cons, Bool.or_eq_false_iff] at h2
            exact ⟨by simp [h1], h2.2⟩
      | false =>
        rw [partitionRequirements] at hx
        simp only [hs] at hx
        obtain ⟨h1, h2⟩ := ih seen x hx
        exact ⟨by simp [h1], h2⟩
    | registry =>
      rw [partitionRequirements] at hx
      simp only [hs] at hx
      obtain ⟨h1, h2⟩ := ih seen x hx
      exact ⟨by simp [h1], h2⟩

theorem contains_false_iff (l : List String) (a : String) :
    l.contains a = false ↔ a ∉ l := by
  constructor
  · intro h hm
    have := List.elem_eq_true_of_mem hm
    rw [show l.contains a = l.elem a from rfl] at h
    rw [this] at h
    cases h
  · intro hm
    cases hc : l.contains a
    · rfl
    · exact absurd (List.mem_of_elem_eq_true hc) hm

theorem unseenCount_le (pkgs : WorkspacePackages) (seen seen' : List PackageName)
    (h : ∀ a, a ∈ seen → a ∈ seen') :
    unseenCount pkgs seen' ≤ unseenCount pkgs seen := by
  apply length_filter_mono
  intro a ha
  rw [Bool.not_eq_true'] at ha
  rw [Bool.not_eq_true']
  rw [contains_false_iff] at ha
  rw [contains_false_iff]
  intro hmem
  exact ha (h a hmem)

theorem unseenCount_lt (pkgs : WorkspacePackages) (seen seen' : List PackageName)
    (hsub : ∀ a, a ∈ seen → a ∈ seen') (x : PackageName)
    (hx : x ∈ allRequirementNames pkgs) (hxo : x ∉ seen) (hxn : x ∈ seen') :
    unseenCount pkgs seen' < unseenCount pkgs seen := by
  refine length_filter_lt _ _ ?hpq _ x hx ?hp ?hq
  case hpq =>
    intro a ha
    rw [Bool.not_eq_true'] at ha
    rw [Bool.not_eq_true']
    rw [contains_false_iff] at ha
    rw [contains_false_iff]
    intro hmem
    exact ha (hsub a hmem)
  case hp =>
    rw [Bool.not_eq_true', contains_false_iff]
    exact hxo
  case hq =>
    rw [Bool.not_eq_false', show seen'.contains x = seen'.elem x from rfl]
    exact List.elem_eq_true_of_mem hxn

/-- The breadth-first traversal of `parse_direct_pyproject_toml`
(specification.rs lines 217-272): pop a package name, look it up in the
workspace, partition its requirements, enqueue the newly seen editables. -/
def pyprojectBfs (pkgs : WorkspacePackages) :
    List PackageName → List PackageName →
    List EditableRequirement × List UnresolvedRequirementSpecification
  | _, [] => ([], [])
  | seen, n :: rest =>
    match hlk : lookupPackage pkgs n with
    | none => pyprojectBfs pkgs seen rest
    | some pkg =>
      let res := partitionRequirements pkg.requirements seen
      let next := pyprojectBfs pkgs res.seen (rest ++ res.enqueued)
      (res.editables ++ next.1, res.plain ++ next.2)
termination_by seen queue => (unseenCount pkgs seen, queue.length)
decreasing_by
  · apply Prod.Lex.right
    simp
  · rcases henq : (partitionRequirements pkg.requirements seen).enqueued with _ | ⟨x, xs⟩
    · have hs := partitionRequirements_seen pkg.requirements seen
      rw [henq] at hs
      simp only [List.reverse_nil, List.nil_append] at hs
      rw [hs]
      apply Prod.Lex.right
      simp [henq]
    · apply Prod.Lex.left
      have hmem := partitionRequirements_enqueued pkg.requirements seen x
        (by rw [henq]; exact List.mem_cons_self _ _)
      have hs := partitionRequirements_seen pkg.requirements seen
      apply unseenCount_lt pkgs seen _ ?hsub x ?hx ?hxo ?hxn
      case hx =>
        have hpkg : pkg ∈ pkgs := List.mem_of_find?_eq_some hlk
        simp only [allRequirementNames, List.mem_flatten]
        exact ⟨pkg.requirements.map (fun r => r.name), List.mem_map_of_mem _ hpkg, hmem.1⟩
      case hxo =>
        rw [← contains_false_iff]
        exact hmem.2
      case hxn =>
        rw [hs, henq]
        simp
      case hsub =>
        intro a ha
        rw [hs]
        simp [ha]

theorem pyprojectBfs_nil (pkgs : WorkspacePackages) (seen : List PackageName) :
    pyprojectBfs pkgs seen [] = ([], []) := by
  rw [pyprojectBfs.eq_def]

theorem pyprojectBfs_cons (pkgs : WorkspacePackages) (seen : List PackageName)
    (n : PackageName) (rest : List PackageName) :
    pyprojectBfs pkgs seen (n :: rest) =
      match lookupPackage pkgs n with
      | none => pyprojectBfs pkgs seen rest
      | some pkg =>
        ((partitionRequirements pkg.requirements seen).editables ++
          (pyprojectBfs pkgs (partitionRequirements pkg.requirements seen).seen
            (rest ++ (partitionRequirements pkg.requirements seen).enqueued)).1,
         (partitionRequirements pkg.requirements seen).plain ++
          (pyprojectBfs pkgs (partitionRequirements pkg.requirements seen).seen
            (rest ++ (partitionRequirements pkg.requirements seen).enqueued)).2) := by
  rw [pyprojectBfs.eq_def]
  split
  · rename_i heq
    exact absurd heq (List.cons_ne_nil _ _)
  · rename_i n' rest' heq
    injection heq with h1 h2
    subst h1
    subst h2
    split
    · rename_i hlk
      rw [hlk]
    · rename_i pkg hlk
      rw [hlk]

/-- The project-manifest aggregation of `parse_direct_pyproject_toml`
(specification.rs lines 178-281): seed the seen-set and queue with the
declared project and traverse; the resulting specification records the
project name, the collected editables and the collected ordinary
requirements. -/
def parseDirectPyprojectToml (pkgs : WorkspacePackages)
    (projectName : PackageName) : RequirementsSpecification :=
  let res := pyprojectBfs pkgs [projectName] [projectName]
  { project := some projectName, editables := res.1, requirements := res.2 }

/-- The workspace of the claim's scenario: members `a`, `b`, `c`; `a` depends
editably on `b` and `b` depends editably on `c`. -/
def exampleWorkspace : WorkspacePackages :=
  [⟨"a", [⟨"b", .path "pkgs/b" true "file:///ws/pkgs/b"⟩]⟩,
   ⟨"b", [⟨"c", .path "pkgs/c" true "file:///ws/pkgs/c"⟩]⟩,
   ⟨"c", []⟩]

/-- Claim C5 (amended): the traversal is breadth-first over the
workspace-internal editable references starting from the declared project,
emitting each discovered member OTHER THAN the declared project itself as an
editable requirement and every non-editable dependency as an ordinary
requirement; for the `a`/`b`/`c` scenario the editables are exactly `b` and
`c` in traversal order (the project `a` is recorded in the specification's
project field, not among its editables), and the requirements exclude these
names (here they are empty). -/
theorem parseDirectPyprojectToml_example :
    (parseDirectPyprojectToml exampleWorkspace "a").project = some "a" ∧
    (parseDirectPyprojectToml exampleWorkspace "a").editables =
      [⟨"file:///ws/pkgs/b", "pkgs/b"⟩, ⟨"file:///ws/pkgs/c", "pkgs/c"⟩] ∧
    (parseDirectPyprojectToml exampleWorkspace "a").requirements = [] := by
  refine ⟨rfl, ?_, ?_⟩ <;>
    simp [parseDirectPyprojectToml, pyprojectBfs_cons, pyprojectBfs_nil,
      partitionRequirements, lookupPackage, exampleWorkspace, List.find?]

/-- Counterexample to claim C5 as stated: aggregating `a` as a project
manifest yields exactly two editables (for `b` and `c`); no editable for the
declared project `a` itself is emitted, so the editables do not equal the
three-member set the claim asserts. -/
theorem parseDirectPyprojectToml_claim_counterexample :
    (parseDirectPyprojectToml exampleWorkspace "a").editables.length = 2 ∧
    ∀ e ∈ (parseDirectPyprojectToml exampleWorkspace "a").editables,
      e.path ≠ "pkgs/a" := by
  constructor <;>
    simp [parseDirectPyprojectToml, pyprojectBfs_cons, pyprojectBfs_nil,
      partitionRequirements, lookupPackage, exampleWorkspace, List.find?]

/-- A filesystem path as its list of components from the root. -/
abbrev FsPath := List String

/-- A workspace declaration (`ToolUvWorkspace`).  Modelled from the spec:
member-glob and exclude-glob expansion (the external `glob` crate) is
represented by carrying the expanded lists of roots directly. -/
structure WorkspaceDefinition where
  memberRoots : List FsPath
  excludedRoots : List FsPath
deriving DecidableEq, Repr

/-- A parsed manifest (`PyProjectToml`, from the crate's absent `pyproject`
module): an optional `[project]` section (its name) and an optional
`[tool.uv.workspace]` section. -/
structure PyProjectTomlM where
  project : Option PackageName
  workspace : Option WorkspaceDefinition
deriving DecidableEq, Repr

/-- The filesystem seen by discovery: which directories hold a manifest. -/
structure ManifestFs where
  manifests : List (FsPath × PyProjectTomlM)
deriving DecidableEq, Repr

/-- Reading `dir/pyproject.toml`, when it exists. -/
def ManifestFs.manifestAt (fs : ManifestFs) (p : FsPath) : Option PyProjectTomlM :=
  (fs.manifests.find? (fun m => m.1 = p)).map (fun m => m.2)

/-- The discovery errors reachable from the embedded code
(`DiscoverError`, discovery.rs lines 14-36). -/
inductive DiscoveryError where
  | missingPyprojectToml
  | missingProject (path : FsPath)
  | readError (path : FsPath)
deriving DecidableEq, Repr

/-- The proper ancestors of a path, nearest first
(`Path::ancestors().skip(1)`), ending at the root. -/
def properAncestors (p : FsPath) : List FsPath :=
  (List.range p.length).map (fun i => p.take (p.length - 1 - i))

/-- What `find_workspace` decides at the first ancestor holding a manifest
(discovery.rs lines 324-375): a workspace section wins unless the project is
excluded; a plain project section means the project stands alone; a manifest
with neither section is a fatal `MissingProject`. -/
def workspaceDecision (projectRoot anc : FsPath) (toml : PyProjectTomlM) :
    Except DiscoveryError (Option (FsPath × WorkspaceDefinition × PyProjectTomlM)) :=
  match toml.workspace with
  | some ws =>
    if projectRoot ∈ ws.excludedRoots then .ok none
    else .ok (some (anc, ws, toml))
  | none =>
    if toml.project.isSome then .ok none
    else .error (.missingProject (anc ++ ["pyproject.toml"]))

/-- The ancestor walk of `find_workspace` (discovery.rs lines 305-379):
directories without a manifest are skipped; the first manifest decides. -/
def findWorkspaceIn (fs : ManifestFs) (projectRoot : FsPath) :
    List FsPath → Except DiscoveryError (Option (FsPath × WorkspaceDefinition × PyProjectTomlM))
  | [] => .ok none
  | anc :: rest =>
    match fs.manifestAt anc with
    | none => findWorkspaceIn fs projectRoot rest
    | some toml => workspaceDecision projectRoot anc toml

/-- `find_workspace`: walk the proper ancestors of the project root. -/
def findWorkspace (fs : ManifestFs) (projectRoot : FsPath) :
    Except DiscoveryError (Option (FsPath × WorkspaceDefinition × PyProjectTomlM)) :=
  findWorkspaceIn fs projectRoot (properAncestors projectRoot)

/-- The discovered project-with-workspace (`ProjectWorkspace`): project root
and name, workspace root, and the member map (name to root; the source table
is not inspected by the claims and is omitted). -/
structure ProjectWorkspaceM where
  projectRoot : FsPath
  projectName : PackageName
  workspaceRoot : FsPath
  packages : List (PackageName × FsPath)
deriving DecidableEq, Repr

/-- `BTreeMap::insert`: replace any entry with the same name. -/
def insertMember (k : PackageName) (v : FsPath)
    (l : List (PackageName × FsPath)) : List (PackageName × FsPath) :=
  (l.filter (fun e => e.1 ≠ k)) ++ [(k, v)]

/-- The member-glob enumeration of `from_project` (discovery.rs lines
218-255): each expanded member root must hold a manifest with a project
section. -/
def addMembers (fs : ManifestFs) :
    List FsPath → List (PackageName × FsPath) →
    Except DiscoveryError (List (PackageName × FsPath))
  | [], acc => .ok acc
  | root :: rest, acc =>
    match fs.manifestAt root with
    | none => .error (.readError (root ++ ["pyproject.toml"]))
    | some toml =>
      match toml.project with
      | none => .error (.missingProject root)
      | some pn => addMembers fs rest (insertMember pn root acc)

/-- Embedding of `ProjectWorkspace::from_project` (discovery.rs lines
156-274): prefer the project's own workspace section, otherwise search the
ancestors; without a workspace the project stands alone as a one-member
workspace; with one, insert the workspace-root package (when distinct and
declaring a project) and the expanded members. -/
def fromProject (fs : ManifestFs) (projectRoot : FsPath)
    (project : PyProjectTomlM) (projectName : PackageName) :
    Except DiscoveryError ProjectWorkspaceM :=
  match (match project.workspace with
         | some w => Except.ok (some (projectRoot, w, project))
         | none => findWorkspace fs projectRoot) with
  | .error e => .error e
  | .ok none =>
    .ok ⟨projectRoot, projectName, projectRoot, [(projectName, projectRoot)]⟩
  | .ok (some (workspaceRoot, wsDef, tomlAtRoot)) =>
    match (if workspaceRoot ≠ projectRoot then
             match fs.manifestAt workspaceRoot with
             | none => Except.error (DiscoveryError.readError
                 (workspaceRoot ++ ["pyproject.toml"]))
             | some _ =>
               match tomlAtRoot.project with
               | some pn => Except.ok (insertMember pn workspaceRoot
                   [(projectName, projectRoot)])
               | none => Except.ok [(projectName, projectRoot)]
           else Except.ok [(projectName, projectRoot)]) with
    | .error e => .error e
    | .ok members =>
      match addMembers fs wsDef.memberRoots members with
      | .error e => .error e
      | .ok members => .ok ⟨projectRoot, projectName, workspaceRoot, members⟩

theorem findWorkspaceIn_spec (fs : ManifestFs) (projectRoot : FsPath) :
    ∀ l : List FsPath,
    (l.find? (fun a => (fs.manifestAt a).isSome) = none →
      findWorkspaceIn fs projectRoot l = .ok none) ∧
    (∀ anc toml, l.find? (fun a => (fs.manifestAt a).isSome) = some anc →
      fs.manifestAt anc = some toml →
      findWorkspaceIn fs projectRoot l = workspaceDecision projectRoot anc toml) := by
  intro l
  induction l with
  | nil =>
    constructor
    · intro _; rfl
    · intro anc toml h _; cases h
  | cons a rest ih =>
    constructor
    · intro hnone
      rw [List.find?_cons] at hnone
      cases hm : fs.manifestAt a with
      | some toml =>
        rw [hm] at hnone
        simp at hnone
      | none =>
        rw [hm] at hnone
        simp only [Option.isSome_none] at hnone
        simp only [findWorkspaceIn, hm]
        exact ih.1 hnone
    · intro anc toml hfind hm
      rw [List.find?_cons] at hfind
      cases hma : fs.manifestAt a with
      | some toml' =>
        rw [hma] at hfind
        simp only [Option.isSome_some] at hfind
        injection hfind with h
        subst h
        rw [hma] at hm
        injection hm with h
        subst h
        simp only [findWorkspaceIn, hma]
      | none =>
        rw [hma] at hfind
        simp only [Option.isSome_none] at hfind
        simp only [findWorkspaceIn, hma]
        exact ih.2 anc toml hfind hm

theorem fromProject_standalone (fs : ManifestFs) (projectRoot : FsPath)
    (project : PyProjectTomlM) (projectName : PackageName)
    (h : (match project.workspace with
          | some w => Except.ok (some (projectRoot, w, project))
          | none => findWorkspace fs projectRoot) = .ok none) :
    fromProject fs projectRoot project projectName =
      .ok ⟨projectRoot, projectName, projectRoot, [(projectName, projectRoot)]⟩ := by
  unfold fromProject
  rw [h]

theorem fromProject_error (fs : ManifestFs) (projectRoot : FsPath)
    (project : PyProjectTomlM) (projectName : PackageName) (e : DiscoveryError)
    (h : (match project.workspace with
          | some w => Except.ok (some (projectRoot, w, project))
          | none => findWorkspace fs projectRoot) = .error e) :
    fromProject fs projectRoot project projectName = .error e := by
  unfold fromProject
  rw [h]

theorem fromProject_found_root (fs : ManifestFs) (projectRoot : FsPath)
    (project : PyProjectTomlM) (projectName : PackageName) (wsRoot : FsPath)
    (wsDef : WorkspaceDefinition) (toml : PyProjectTomlM)
    (h : (match project.workspace with
          | some w => Except.ok (some (projectRoot, w, project))
          | none => findWorkspace fs projectRoot) = .ok (some (wsRoot, wsDef, toml)))
    (pw : ProjectWorkspaceM)
    (hpw : fromProject fs projectRoot project projectName = .ok pw) :
    pw.workspaceRoot = wsRoot := by
  unfold fromProject at hpw
  rw [h] at hpw
  split at hpw
  · cases hpw
  · rename_i heq
    injection heq with heq2
    cases heq2
  · rename_i heq
    injection heq with heq2
    injection heq2 with heq3
    injection heq3 with ha hb
    injection hb with hb1 hb2
    subst ha
    subst hb1
    subst hb2
    split at hpw
    · cases hpw
    · split at hpw
      · cases hpw
      · injection hpw with hh
        subst hh
        rfl

/-- Claim C6 (amended): workspace discovery resolves the workspace root as
follows — a project whose own manifest declares a workspace section is its
own workspace root; otherwise only the NEAREST ancestor directory holding a
manifest is consulted: if that manifest declares a workspace section the
ancestor is the workspace root unless the project matches its exclude list
(then the project stands alone as a one-member workspace rooted at the
project); if it declares a project section without a workspace section the
project stands alone likewise; and if it declares neither section discovery
fails with `MissingProject` (it does NOT continue to a farther workspace
ancestor); with no manifest-bearing ancestor the project stands alone. -/
theorem fromProject_workspace_root (fs : ManifestFs) (projectRoot : FsPath)
    (project : PyProjectTomlM) (projectName : PackageName) :
    (∀ w, project.workspace = some w →
      ∀ pw, fromProject fs projectRoot project projectName = .ok pw →
        pw.workspaceRoot = projectRoot) ∧
    (project.workspace = none →
      ((properAncestors projectRoot).find? (fun a => (fs.manifestAt a).isSome) = none →
        fromProject fs projectRoot project projectName =
          .ok ⟨projectRoot, projectName, projectRoot, [(projectName, projectRoot)]⟩) ∧
      (∀ anc toml,
        (properAncestors projectRoot).find? (fun a => (fs.manifestAt a).isSome) = some anc →
        fs.manifestAt anc = some toml →
        (∀ w, toml.workspace = some w →
          (projectRoot ∈ w.excludedRoots →
            fromProject fs projectRoot project projectName =
              .ok ⟨projectRoot, projectName, projectRoot, [(projectName, projectRoot)]⟩) ∧
          (projectRoot ∉ w.excludedRoots →
            ∀ pw, fromProject fs projectRoot project projectName = .ok pw →
              pw.workspaceRoot = anc)) ∧
        (toml.workspace = none →
          (toml.project.isSome = true →
            fromProject fs projectRoot project projectName =
              .ok ⟨projectRoot, projectName, projectRoot, [(projectName, projectRoot)]⟩) ∧
          (toml.project = none →
            fromProject fs projectRoot project projectName =
              .error (.missingProject (anc ++ ["pyproject.toml"])))))) := by
  constructor
  · intro w hw pw hpw
    refine fromProject_found_root fs projectRoot project projectName projectRoot
      w project ?_ pw hpw
    rw [hw]
  · intro hw
    have hsel : (match project.workspace with
        | some w => Except.ok (some (projectRoot, w, project))
        | none => findWorkspace fs projectRoot) = findWorkspace fs projectRoot := by
      rw [hw]
    have hspec := findWorkspaceIn_spec fs projectRoot (properAncestors projectRoot)
    constructor
    · intro hfind
      exact fromProject_standalone fs projectRoot project projectName
        (hsel.trans (hspec.1 hfind))
    · intro anc toml hfind hm
      have hfw : findWorkspace fs projectRoot = workspaceDecision projectRoot anc toml :=
        hspec.2 anc toml hfind hm
      constructor
      · intro w hws
        constructor
        · intro hexc
          apply fromProject_standalone fs projectRoot project projectName
          rw [hsel, hfw]
          unfold workspaceDecision
          rw [hws]
          show (if projectRoot ∈ w.excludedRoots then Except.ok none
            else Except.ok (some (anc, w, toml))) = Except.ok none
          rw [if_pos hexc]
        · intro hexc pw hpw
          refine fromProject_found_root fs projectRoot project projectName anc
            w toml ?_ pw hpw
          rw [hsel, hfw]
          unfold workspaceDecision
          rw [hws]
          show (if projectRoot ∈ w.excludedRoots then Except.ok none
            else Except.ok (some (anc, w, toml))) = Except.ok (some (anc, w, toml))
          rw [if_neg hexc]
      · intro hws
        constructor
        · intro hproj
          apply fromProject_standalone fs projectRoot project projectName
          rw [hsel, hfw]
          unfold workspaceDecision
          rw [hws]
          show (if toml.project.isSome = true then Except.ok none
            else Except.error (DiscoveryError.missingProject (anc ++ ["pyproject.toml"]))) =
            Except.ok none
          rw [if_pos hproj]
        · intro hproj
          apply fromProject_error fs projectRoot project projectName
          rw [hsel, hfw]
          unfold workspaceDecision
          rw [hws]
          show (if toml.project.isSome = true then Except.ok none
            else Except.error (DiscoveryError.missingProject (anc ++ ["pyproject.toml"]))) =
            Except.error (DiscoveryError.missingProject (anc ++ ["pyproject.toml"]))
          rw [if_neg (by rw [hproj]; simp)]

/-- Witness for `fromProject_workspace_root`: a project whose own manifest
declares a (memberless) workspace is its own workspace root. -/
theorem fromProject_workspace_root_witness :
    (⟨["ws"], "proj", ["ws"], [("proj", ["ws"])]⟩ : ProjectWorkspaceM).workspaceRoot =
      ["ws"] :=
  (fromProject_workspace_root ⟨[]⟩ ["ws"]
      ⟨some "proj", some ⟨[], []⟩⟩ "proj").1
    ⟨[], []⟩ rfl ⟨["ws"], "proj", ["ws"], [("proj", ["ws"])]⟩ (by decide)

/-- The filesystem of the counterexample: a workspace manifest at `/a`, a
manifest with neither section at `/a/b`, and the project at `/a/b/c`. -/
def cexManifestFs : ManifestFs :=
  ⟨[(["a"], ⟨none, some ⟨[], []⟩⟩),
    (["a", "b"], ⟨none, none⟩)]⟩

/-- Counterexample to claim C6 as stated: the nearest ancestor manifest
declaring a workspace section is `/a` and neither of the claim's two escape
clauses applies (`/a/b`'s manifest has no project section, and the project is
not excluded), so the claim predicts workspace root `/a`; the code instead
stops at the nearest manifest-bearing ancestor `/a/b`, whose manifest
declares neither section, and fails with `MissingProject`. -/
theorem fromProject_claim_counterexample :
    cexManifestFs.manifestAt ["a", "b"] = some ⟨none, none⟩ ∧
    cexManifestFs.manifestAt ["a"] = some ⟨none, some ⟨[], []⟩⟩ ∧
    fromProject cexManifestFs ["a", "b", "c"] ⟨some "proj", none⟩ "proj" =
      .error (.missingProject ["a", "b", "pyproject.toml"]) := by
  decide

/-- A local distribution as the sync pipeline and its change report see it
(`LocalDist`): a package name and an installed version.  Versions
(`pep440_rs`, external) are modelled as opaque ordered keys. -/
structure LocalDist where
  name : PackageName
  version : Nat
deriving DecidableEq, Repr

/-- Modelled from the spec: `ChangeEventKind` is declared outside `src/` (in
the command module's shared `mod.rs`); per the spec removals sort before
additions, so `removed` ranks below `added`. -/
inductive ChangeEventKind where
  | removed
  | added
deriving DecidableEq, Repr

/-- The sort rank of a change-event kind: removals first. -/
def ChangeEventKind.rank : ChangeEventKind → Nat
  | .removed => 0
  | .added => 1

/-- One line of the change report (`ChangeEvent`). -/
structure ChangeEvent where
  kind : ChangeEventKind
  name : PackageName
  version : Nat
deriving DecidableEq, Repr

/-- A name's sort key: its characters as numbers (the external
`PackageName` ordering is the lexicographic string order). -/
def strKey (s : String) : List Nat :=
  s.data.map Char.toNat

/-- The comparator key of the report's `sorted_unstable_by` call
(sync.rs lines 537-543): name, then kind (removals before additions), then
installed version, lexicographically. -/
def ChangeEvent.key (e : ChangeEvent) : Lex (List Nat × Lex (Nat × Nat)) :=
  toLex (strKey e.name, toLex (e.kind.rank, e.version))

/-- The report ordering. -/
def changeLe (a b : ChangeEvent) : Prop :=
  a.key ≤ b.key

instance : DecidableRel changeLe :=
  fun a b => inferInstanceAs (Decidable (a.key ≤ b.key))

instance : IsTotal ChangeEvent changeLe :=
  ⟨fun a b => le_total a.key b.key⟩

instance : IsTrans ChangeEvent changeLe :=
  ⟨fun _ _ _ hab hbc => le_trans hab hbc⟩

/-- The change report of `pip_sync` (sync.rs lines 525-543): removal lines
for the extraneous and reinstalled distributions, addition lines for the
installed wheels, sorted by the comparator.  Rust's `sorted_unstable_by` is
modelled by insertion sort: both produce a permutation sorted under the same
comparator (the claims constrain nothing finer). -/
def changeReport (extraneous reinstalls wheels : List LocalDist) : List ChangeEvent :=
  List.insertionSort changeLe
    ((extraneous ++ reinstalls).map (fun d => ⟨.removed, d.name, d.version⟩) ++
      wheels.map (fun d => ⟨.added, d.name, d.version⟩))

/-- Claim C9: the emitted change report is totally ordered by package name
ascending, then removals before additions, then installed version (it is
sorted under the report comparator), and it is exactly — as a multiset — one
Removed event per extraneous or reinstalled distribution plus one Added
event per installed wheel. -/
theorem changeReport_sorted_complete (extraneous reinstalls wheels : List LocalDist) :
    List.Sorted changeLe (changeReport extraneous reinstalls wheels) ∧
    (changeReport extraneous reinstalls wheels).Perm
      ((extraneous ++ reinstalls).map (fun d => ⟨.removed, d.name, d.version⟩) ++
        wheels.map (fun d => ⟨.added, d.name, d.version⟩)) := by
  exact ⟨List.sorted_insertionSort changeLe _, List.perm_insertionSort changeLe _⟩

/-- The exit status of the sync entry point. -/
inductive ExitStatus where
  | success
  | failure
deriving DecidableEq, Repr

/-- The observable steps of one `pip_sync` run, in program order. -/
inductive SyncEvent where
  | noRequirementsReport
  | inspectEnvironment
  | auditReport
  | fetch (d : LocalDist)
  | uninstall (d : LocalDist)
  | link (d : LocalDist)
  | compileBytecode
  | reportChange (e : ChangeEvent)
deriving DecidableEq, Repr

/-- The four-way installation plan produced by the external `Planner`. -/
structure InstallPlan where
  cached : List LocalDist
  remote : List LocalDist
  reinstalls : List LocalDist
  extraneous : List LocalDist
deriving DecidableEq, Repr

/-- The external collaborators of `pip_sync`: the environment snapshot, the
planner's output, the resolver's verdict and the downloader. -/
structure SyncWorld where
  env : List LocalDist
  plan : InstallPlan
  resolveOk : Bool
  download : LocalDist → LocalDist

/-- The outcome of one `pip_sync` run: exit status, the trace of observable
steps in program order, and the final environment. -/
structure SyncResult where
  status : ExitStatus
  trace : List SyncEvent
  env : List LocalDist

/-- The requirement count validated at sync.rs line 97. -/
def numRequirements (spec : RequirementsSpecification) : Nat :=
  spec.requirements.length + spec.sourceTrees.length + spec.editables.length

/-- Embedding of the `pip_sync` pipeline (sync.rs lines 44-608) over the
external collaborators in `world`: the empty-specification early return
(lines 96-101), environment inspection (line 246), the audited early return
(lines 335-350), the resolver failure return (lines 389-397), then — in
program order — download/build of the remote distributions (lines 420-452),
uninstallation of the extraneous and reinstalled distributions (lines
454-497), linking of the downloaded and cached wheels (lines 499-519),
optional bytecode compilation (line 521-523), and the change report (lines
525-565). -/
def pipSync (spec : RequirementsSpecification) (world : SyncWorld)
    (compile : Bool) : SyncResult :=
  if numRequirements spec = 0 then
    ⟨.success, [.noRequirementsReport], world.env⟩
  else if world.plan.remote = [] ∧ world.plan.cached = [] ∧
      world.plan.reinstalls = [] ∧ world.plan.extraneous = [] then
    ⟨.success, [.inspectEnvironment, .auditReport], world.env⟩
  else if world.plan.remote ≠ [] ∧ world.resolveOk = false then
    ⟨.failure, [.inspectEnvironment], world.env⟩
  else
    ⟨.success,
      [.inspectEnvironment] ++ world.plan.remote.map .fetch ++
        (world.plan.extraneous ++ world.plan.reinstalls).map .uninstall ++
        (world.plan.remote.map world.download ++ world.plan.cached).map .link ++
        (if compile then [.compileBytecode] else []) ++
        (changeReport world.plan.extraneous world.plan.reinstalls
          (world.plan.remote.map world.download ++ world.plan.cached)).map
          .reportChange,
      (world.env.filter
        (fun d => ¬ (world.plan.extraneous ++ world.plan.reinstalls).contains d)) ++
        (world.plan.remote.map world.download ++ world.plan.cached)⟩

/-- The stage of an event in the order the CODE applies them:
fetch-and-build, then uninstall, then link, then bytecode compilation. -/
def executionStageRank : SyncEvent → Option Nat
  | .fetch _ => some 0
  | .uninstall _ => some 1
  | .link _ => some 2
  | .compileBytecode => some 3
  | _ => none

/-- The stage order claim C7 asserts, following the spec's words: uninstall
first, then fetch-and-build, then link, then bytecode compilation. -/
def claimedStageRank : SyncEvent → Option Nat
  | .uninstall _ => some 0
  | .fetch _ => some 1
  | .link _ => some 2
  | .compileBytecode => some 3
  | _ => none

theorem filterMap_map_stage (f : SyncEvent → Option Nat) (c : Nat)
    {α : Type} (l : List α) (g : α → SyncEvent) (hg : ∀ x, f (g x) = some c) :
    (l.map g).filterMap f = l.map (fun _ => c) := by
  induction l with
  | nil => rfl
  | cons d ds ih => simp [List.filterMap_cons, hg d, ih]

theorem filterMap_map_silent (f : SyncEvent → Option Nat) {α : Type}
    (l : List α) (g : α → SyncEvent) (hg : ∀ x, f (g x) = none) :
    (l.map g).filterMap f = [] := by
  induction l with
  | nil => rfl
  | cons d ds ih => simp [List.filterMap_cons, hg d, ih]

theorem pairwise_le_of_all_eq (c : Nat) (l : List Nat) (h : ∀ x ∈ l, x = c) :
    List.Pairwise (· ≤ ·) l := by
  induction l with
  | nil => simp
  | cons a as ih =>
    refine List.pairwise_cons.mpr
      ⟨fun b hb => ?_, ih (fun x hx => h x (List.mem_cons_of_mem _ hx))⟩
    rw [h a (List.mem_cons_self _ _), h b (List.mem_cons_of_mem _ hb)]

theorem mem_map_const {α : Type} (c : Nat) (l : List α) (x : Nat)
    (h : x ∈ l.map (fun _ => c)) : x = c := by
  obtain ⟨_, _, rfl⟩ := List.mem_map.mp h
  rfl

theorem pairwise_le_four (A B C D : List Nat)
    (hA : ∀ x ∈ A, x = 0) (hB : ∀ x ∈ B, x = 1)
    (hC : ∀ x ∈ C, x = 2) (hD : ∀ x ∈ D, x = 3) :
    List.Pairwise (· ≤ ·) (A ++ (B ++ (C ++ D))) := by
  refine List.pairwise_append.mpr ⟨pairwise_le_of_all_eq 0 A hA, ?_, ?_⟩
  · refine List.pairwise_append.mpr ⟨pairwise_le_of_all_eq 1 B hB, ?_, ?_⟩
    · refine List.pairwise_append.mpr
        ⟨pairwise_le_of_all_eq 2 C hC, pairwise_le_of_all_eq 3 D hD, ?_⟩
      intro a ha b hb
      rw [hC a ha, hD b hb]
      omega
    · intro a ha b hb
      rw [hB a ha]
      rcases List.mem_append.mp hb with h | h
      · rw [hC b h]; omega
      · rw [hD b h]; omega
  · intro a ha b hb
    rw [hA a ha]
    omega

/-- Claim C7 (amended): in every `pip_sync` run the pipeline stages are
applied in the order (1) fetch-and-build of the remote distributions, then
(2) uninstallation of the extraneous and reinstalled distributions, then
(3) linking of the downloaded and cached wheels, then (4) optional bytecode
compilation: the sequence of stage ranks along the trace is monotonically
non-decreasing.  In particular no link operation begins before every
uninstall has completed; but — against the spec's stated ordering — the
downloads happen before the uninstalls, not after them. -/
theorem pipSync_stage_order (spec : RequirementsSpecification)
    (world : SyncWorld) (compile : Bool) :
    List.Pairwise (· ≤ ·)
      ((pipSync spec world compile).trace.filterMap executionStageRank) := by
  unfold pipSync
  by_cases h0 : numRequirements spec = 0
  · rw [if_pos h0]
    simp [executionStageRank]
  · rw [if_neg h0]
    by_cases h1 : world.plan.remote = [] ∧ world.plan.cached = [] ∧
        world.plan.reinstalls = [] ∧ world.plan.extraneous = []
    · rw [if_pos h1]
      simp [executionStageRank, List.filterMap_cons]
    · rw [if_neg h1]
      by_cases h2 : world.plan.remote ≠ [] ∧ world.resolveOk = false
      · rw [if_pos h2]
        simp [executionStageRank, List.filterMap_cons]
      · rw [if_neg h2]
        show List.Pairwise (· ≤ ·) (List.filterMap executionStageRank
          ([SyncEvent.inspectEnvironment] ++ world.plan.remote.map .fetch ++
            (world.plan.extraneous ++ world.plan.reinstalls).map .uninstall ++
            (world.plan.remote.map world.download ++ world.plan.cached).map .link ++
            (if compile then [SyncEvent.compileBytecode] else []) ++
            (changeReport world.plan.extraneous world.plan.reinstalls
              (world.plan.remote.map world.download ++ world.plan.cached)).map
              .reportChange))
        rw [List.filterMap_append, List.filterMap_append, List.filterMap_append,
          List.filterMap_append, List.filterMap_append]
        rw [show List.filterMap executionStageRank [SyncEvent.inspectEnvironment] = []
            from rfl,
          filterMap_map_stage executionStageRank 0 _ SyncEvent.fetch (fun _ => rfl),
          filterMap_map_stage executionStageRank 1 _ SyncEvent.uninstall (fun _ => rfl),
          filterMap_map_stage executionStageRank 2 _ SyncEvent.link (fun _ => rfl),
          filterMap_map_silent executionStageRank _ SyncEvent.reportChange
            (fun _ => rfl),
          show (if compile then [SyncEvent.compileBytecode] else []).filterMap
              executionStageRank = if compile then [3] else []
            from by cases compile <;> rfl]
        simp only [List.nil_append, List.append_nil, List.append_assoc]
        refine pairwise_le_four _ _ _ _ (mem_map_const 0 _) (mem_map_const 1 _)
          (mem_map_const 2 _) ?_
        intro x hx
        rcases hcomp : compile with _ | _ <;> rw [hcomp] at hx <;> simp_all

/-- A one-requirement specification for the stage-order counterexample. -/
def cexSyncSpec : RequirementsSpecification :=
  { requirements := [⟨.named ⟨"p"⟩, []⟩] }

/-- A world whose plan holds one remote distribution and one extraneous
installed distribution. -/
def cexSyncWorld : SyncWorld :=
  { env := [], plan := ⟨[], [⟨"p", 1⟩], [], [⟨"q", 2⟩]⟩, resolveOk := true,
    download := id }

/-- Counterexample to claim C7 as stated: with one remote distribution and
one extraneous distribution, the trace carries the fetch of `p` BEFORE the
uninstall of `q`, so under the claim's stage numbering (uninstall = 0,
fetch = 1, link = 2, compile = 3) the rank sequence is [1, 0, 2], which is
not monotone — the claimed "(1) uninstall, then (2) fetch-and-build"
ordering does not hold. -/
theorem pipSync_claim_counterexample :
    (pipSync cexSyncSpec cexSyncWorld false).trace.filterMap claimedStageRank =
      [1, 0, 2] ∧
    ¬ List.Pairwise (· ≤ ·)
      ((pipSync cexSyncSpec cexSyncWorld false).trace.filterMap claimedStageRank) := by
  decide

/-- Claim C10: when the aggregated specification carries no requirements, no
source trees and no editables, `pip_sync` reports "No requirements found"
and returns success immediately — for EVERY state of the external
collaborators the result is the same: no environment inspection, no
uninstall, no resolution, no download, no install and no compilation appear
in the trace, and the environment is returned unchanged. -/
theorem pipSync_no_requirements (spec : RequirementsSpecification)
    (world : SyncWorld) (compile : Bool) (h : numRequirements spec = 0) :
    pipSync spec world compile =
      ⟨.success, [.noRequirementsReport], world.env⟩ := by
  unfold pipSync
  rw [if_pos h]

/-- Witness for `pipSync_no_requirements`: the empty specification against a
non-trivial environment leaves it untouched. -/
theorem pipSync_no_requirements_witness :
    pipSync {} ⟨[⟨"x", 1⟩], ⟨[], [], [], []⟩, true, id⟩ false =
      ⟨.success, [.noRequirementsReport], [⟨"x", 1⟩]⟩ :=
  pipSync_no_requirements {} ⟨[⟨"x", 1⟩], ⟨[], [], [], []⟩, true, id⟩ false rfl
